import Mathlib

/-!
Verification development for the TFBSpedia query-resolution and batch-search
engine (`home/views.py`).  The Python functions are shallowly embedded as Lean
definitions: the relational store is a list of projected rows, SQL filtering is
`List.filter`, `ORDER BY` is an insertion sort, `OFFSET`/`LIMIT` is
`drop`/`take`, `SELECT DISTINCT` and the Python coordinate deduplication are a
keep-first dedup keyed by the relevant projection, and fallible Python code
(`int(...)`, store access) returns `Option`/`Except`.
-/

namespace TFBS

/-! ## Text utilities (Python string primitives used by the parsers) -/

/-- Whitespace characters removed by Python `str.strip()` (ASCII subset). -/
def isPyWs (c : Char) : Bool :=
  c = ' ' || c = '\t' || c = '\n' || c = '\r' || c = '\x0b' || c = '\x0c'

/-- Python `str.strip()` on a character list. -/
def pyStrip (cs : List Char) : List Char :=
  ((cs.dropWhile isPyWs).reverse.dropWhile isPyWs).reverse

/-- Python `str.strip()` on a `String`. -/
def stripS (s : String) : String :=
  String.mk (pyStrip s.toList)

/-- Python `str.split(',')`: always returns a non-empty list of comma-free parts. -/
def splitComma : List Char → List (List Char)
  | [] => [[]]
  | c :: rest =>
    if c = ',' then [] :: splitComma rest
    else
      match splitComma rest with
      | [] => [[c]]
      | p :: ps => (c :: p) :: ps

/-- Python `str.split('\n')`. -/
def splitNL : List Char → List (List Char)
  | [] => [[]]
  | c :: rest =>
    if c = '\n' then [] :: splitNL rest
    else
      match splitNL rest with
      | [] => [[c]]
      | p :: ps => (c :: p) :: ps

/-- Inverse of `splitComma`: re-intercalates the parts with a comma. -/
def joinComma : List (List Char) → List Char
  | [] => []
  | [p] => p
  | p :: ps => p ++ ',' :: joinComma ps

/-- Python `str.rstrip(',')`. -/
def rstripComma (cs : List Char) : List Char :=
  (cs.reverse.dropWhile (fun c => c = ',')).reverse

/-- First codepoints of the 10-codepoint runs of Unicode decimal digits
(category Nd): the characters Python's `\d` matches in `str` patterns and
`int(...)` accepts as digits.  Each Nd digit is `start + value` for exactly
one entry of this table. -/
def ndStarts : List Nat :=
  [48, 1632, 1776, 1984, 2406, 2534, 2662, 2790, 2918, 3046, 3174, 3302, 3430,
   3558, 3664, 3792, 3872, 4160, 4240, 6112, 6160, 6470, 6608, 6784, 6800, 6992,
   7088, 7232, 7248, 42528, 43216, 43264, 43472, 43504, 43600, 44016, 65296,
   66720, 68912, 69734, 69872, 69942, 70096, 70384, 70736, 70864, 71248, 71360,
   71472, 71904, 72016, 72784, 73040, 73120, 92768, 92864, 93008, 120782,
   120792, 120802, 120812, 120822, 123200, 123632, 125264, 130032]

/-- Decimal digit test: `\d` of the source regexes, i.e. any Unicode decimal
digit (category Nd), not only ASCII `0`-`9`. -/
def isDigitCh (c : Char) : Bool :=
  ndStarts.any (fun s => decide (s ≤ c.toNat) && decide (c.toNat ≤ s + 9))

/-- Decimal value of a Unicode digit (offset into its Nd run; 0 on
non-digits). -/
def ndVal (c : Char) : Nat :=
  match ndStarts.find? (fun s => decide (s ≤ c.toNat) && decide (c.toNat ≤ s + 9)) with
  | some s => c.toNat - s
  | none => 0

/-- Numeric value of an all-digit character list. -/
def digitsVal (cs : List Char) : Int :=
  cs.foldl (fun acc c => acc * 10 + (Int.ofNat (ndVal c))) 0

/-- Python `int(...)` at the call sites of `parse_genomic_location`: strips
surrounding whitespace (so `3\n` parses), then succeeds exactly on a
non-empty run of Unicode decimal digits, returning its value; `none` models
the raised `ValueError` otherwise (the matched parts never carry signs or
underscores, so those `int` forms are out of scope). -/
def pyInt (cs : List Char) : Option Int :=
  let t := pyStrip cs
  if !t.isEmpty && t.all isDigitCh then some (digitsVal t) else none

/-! ## Query classifier (`is_genomic_location`, `parse_genomic_location`) -/

/-- One-or-more digits (`\d+`). -/
def digitsPlus (cs : List Char) : Bool :=
  !cs.isEmpty && cs.all isDigitCh

/-- Python `re.match` with a `$`-anchored pattern also matches when the
pattern consumes everything up to one trailing newline; equivalently, the
anchored body is matched against the string with one final newline removed.
This removes that newline. -/
def dropTrailNL (cs : List Char) : List Char :=
  if cs.getLast? = some '\n' then cs.dropLast else cs

/-- The anchored body `chr\d+` of `is_genomic_location`'s first regex. -/
def isChrOnlyCore : List Char → Bool
  | c1 :: c2 :: c3 :: rest =>
    decide (c1 = 'c') && decide (c2 = 'h') && decide (c3 = 'r') && digitsPlus rest
  | _ => false

/-- The anchored body `chr\d+,\d+,\d+` of `is_genomic_location`'s second
regex: after `chr`, the remainder must split on commas into exactly three
non-empty digit runs. -/
def isFullLocCore : List Char → Bool
  | c1 :: c2 :: c3 :: rest =>
    decide (c1 = 'c') && decide (c2 = 'h') && decide (c3 = 'r') &&
      (match splitComma rest with
       | [d1, d2, d3] => digitsPlus d1 && digitsPlus d2 && digitsPlus d3
       | _ => false)
  | _ => false

/-- The regex `^chr\d+$` of `is_genomic_location`, with Python's `$`
semantics (an optional single trailing newline). -/
def isChrOnlyL (cs : List Char) : Bool :=
  isChrOnlyCore (dropTrailNL cs)

/-- The regex `^chr\d+,\d+,\d+$` of `is_genomic_location`, with Python's `$`
semantics (an optional single trailing newline). -/
def isFullLocL (cs : List Char) : Bool :=
  isFullLocCore (dropTrailNL cs)

/-- Embedding of `is_genomic_location` (full-region pattern checked first,
then chromosome-only, as in the source). -/
def isGenomicLocationL (cs : List Char) : Bool :=
  isFullLocL cs || isChrOnlyL cs

/-- String-level wrapper for `is_genomic_location`. -/
def isGenomicLocation (s : String) : Bool :=
  isGenomicLocationL s.toList

/-- The `chr<digits>` pattern exactly as claim C6 states it: ASCII digits
running to the very end of the string.  Kept as the claim-side notion for the
counterexample; the program's actual pattern is `ChrOnlyPatternPy`. -/
def ChrOnlyPattern (cs : List Char) : Prop :=
  ∃ ds : List Char, ds ≠ [] ∧ (∀ c ∈ ds, '0' ≤ c ∧ c ≤ '9') ∧
    cs = 'c' :: 'h' :: 'r' :: ds

/-- The `chr<digits>,<digits>,<digits>` pattern exactly as claim C6 states
it (ASCII digits, nothing after the last digit). -/
def FullLocPattern (cs : List Char) : Prop :=
  ∃ d1 d2 d3 : List Char,
    d1 ≠ [] ∧ d2 ≠ [] ∧ d3 ≠ [] ∧
    (∀ c ∈ d1, '0' ≤ c ∧ c ≤ '9') ∧
    (∀ c ∈ d2, '0' ≤ c ∧ c ≤ '9') ∧
    (∀ c ∈ d3, '0' ≤ c ∧ c ≤ '9') ∧
    cs = 'c' :: 'h' :: 'r' :: (d1 ++ ',' :: (d2 ++ ',' :: d3))

/-- Declarative body of `chr\d+` with Unicode digits. -/
def ChrOnlyBody (cs : List Char) : Prop :=
  ∃ ds : List Char, ds ≠ [] ∧ (∀ c ∈ ds, isDigitCh c = true) ∧
    cs = 'c' :: 'h' :: 'r' :: ds

/-- Declarative body of `chr\d+,\d+,\d+` with Unicode digits. -/
def FullLocBody (cs : List Char) : Prop :=
  ∃ d1 d2 d3 : List Char,
    d1 ≠ [] ∧ d2 ≠ [] ∧ d3 ≠ [] ∧
    (∀ c ∈ d1, isDigitCh c = true) ∧
    (∀ c ∈ d2, isDigitCh c = true) ∧
    (∀ c ∈ d3, isDigitCh c = true) ∧
    cs = 'c' :: 'h' :: 'r' :: (d1 ++ ',' :: (d2 ++ ',' :: d3))

/-- Declarative form of what `^chr\d+$` accepts under Python semantics: the
body, optionally followed by one newline. -/
def ChrOnlyPatternPy (cs : List Char) : Prop :=
  ∃ body : List Char, ChrOnlyBody body ∧ (cs = body ∨ cs = body ++ ['\n'])

/-- Declarative form of what `^chr\d+,\d+,\d+$` accepts under Python
semantics: the body, optionally followed by one newline. -/
def FullLocPatternPy (cs : List Char) : Prop :=
  ∃ body : List Char, FullLocBody body ∧ (cs = body ∨ cs = body ++ ['\n'])

/-- Embedding of `parse_genomic_location`.  `none` models a raised exception
(`IndexError` on too few comma parts, `ValueError` from `int`); on success the
region is `none` for the chromosome-only form and `some (start, end)` for the
full form.  Extra comma parts beyond the third are ignored, as `parts[0..2]`
are in the source. -/
def parseGenomicLocationL (cs : List Char) : Option (String × Option (Int × Int)) :=
  if ',' ∈ cs then
    match splitComma cs with
    | p0 :: p1 :: p2 :: _ =>
      (pyInt p1).bind (fun a => (pyInt p2).map (fun b => (String.mk p0, some (a, b))))
    | _ => none
  else some (String.mk cs, none)

/-- A classified query: the tagged union produced by the classifier. -/
inductive Query where
  | location (chromosome : String) (region : Option (Int × Int))
  | name (term : String)
deriving DecidableEq

/-- The classification step performed by the view layer: strings passing
`is_genomic_location` flow into `parse_genomic_location`, everything else is a
name query on the whole string.  `none` models a raised exception. -/
def classify (s : String) : Option Query :=
  if isGenomicLocation s then
    (parseGenomicLocationL s.toList).map (fun p => Query.location p.1 p.2)
  else some (Query.name s)

/-! ## Batch parser (`parse_batch_file`) -/

/-- The per-line body of the `parse_batch_file` loop: strip the line, skip
blanks and `#` comments, strip a residual BOM and trailing commas, then keep
the whole line when it is a recognized location, the first comma field when
the line is CSV-like, and the line itself otherwise.  `none` means the line
contributes no query. -/
def cleanBatchLine (line : List Char) : Option (List Char) :=
  let line := pyStrip line
  if line.isEmpty || line.head? = some '#' then none
  else
    let clean := pyStrip line
    let clean := if clean.head? = some '\uFEFF' then pyStrip (clean.drop 1) else clean
    let clean := rstripComma clean
    if clean.isEmpty then none
    else if isGenomicLocationL clean then some clean
    else if ',' ∈ clean then
      let first := pyStrip ((splitComma clean).headD [])
      if first.isEmpty then none else some first
    else some clean

/-- The accumulation loop of `parse_batch_file`: each line appends at most one
query, in line order. -/
def parseBatchLoop : List (List Char) → List (List Char)
  | [] => []
  | line :: rest =>
    match cleanBatchLine line with
    | none => parseBatchLoop rest
    | some q => q :: parseBatchLoop rest

/-- Leading byte-order-mark removal (`startswith` BOM then `[1:]`). -/
def stripLeadBOM (cs : List Char) : List Char :=
  if cs.head? = some '\uFEFF' then cs.drop 1 else cs

/-- Embedding of `parse_batch_file` on a character list. -/
def parseBatchFileL (content : List Char) : List (List Char) :=
  parseBatchLoop (splitNL (pyStrip (stripLeadBOM content)))

/-- Embedding of `parse_batch_file` on a `String`. -/
def parseBatchFile (content : String) : List String :=
  (parseBatchFileL content.toList).map String.mk

/-! ## Data model: projected store rows -/

/-- A row of the `TFBS_position` table as projected by every search query
(`ID`, `seqnames`, `start`, `end`); `end` is a Lean keyword, so the column is
called `stop` here. -/
structure PosRow where
  id : Int
  seqnames : String
  start : Int
  stop : Int
deriving DecidableEq

/-- A row of the `TFBS_name` table; a SQL `NULL` name is `none` (and, as in
SQL, never equal to any term). -/
structure NameRow where
  id : Int
  tfbs : Option String
  predicted : Option String
deriving DecidableEq

/-- A row of the precomputed `tfbs_name_counts` aggregate table. -/
structure NameCountRow where
  tfbs : String
  allCount : Int
  tfbsCount : Int
  predictedCount : Int
deriving DecidableEq

/-- One species store: the tables the search engine reads. -/
structure Store where
  positions : List PosRow
  names : List NameRow
  nameCounts : List NameCountRow
deriving DecidableEq

/-- The coordinate key used by every Python-side deduplication step. -/
def coordKey (r : PosRow) : String × Int × Int :=
  (r.seqnames, r.start, r.stop)

/-! ## List machinery shared by the SQL embeddings -/

/-- Keep-first deduplication by a key, as the Python
`seen = set(); for row ...` loops do: a row is kept exactly when its key has
not occurred earlier (nor is in the initial `seen`). -/
def dedupBy {α κ : Type} [DecidableEq κ] (key : α → κ) (seen : List κ) :
    List α → List α
  | [] => []
  | x :: xs =>
    if key x ∈ seen then dedupBy key seen xs
    else x :: dedupBy key (key x :: seen) xs

/-- SQL `OFFSET o LIMIT l`. -/
def window (offset limit : Nat) (l : List PosRow) : List PosRow :=
  (l.drop offset).take limit

/-- Insertion step for the `ORDER BY` embedding. -/
def insertSorted (le : PosRow → PosRow → Bool) (r : PosRow) :
    List PosRow → List PosRow
  | [] => [r]
  | x :: xs => if le r x then r :: x :: xs else x :: insertSorted le r xs

/-- Deterministic embedding of SQL `ORDER BY` as an insertion sort (ties keep
store iteration order, one of the orders SQL may return). -/
def sortRows (le : PosRow → PosRow → Bool) : List PosRow → List PosRow
  | [] => []
  | r :: rs => insertSorted le r (sortRows le rs)

/-- The comparison of `ORDER BY "start"`. -/
def startLe (a b : PosRow) : Bool :=
  decide (a.start ≤ b.start)

/-- Lexicographic codepoint order on character lists (the deterministic
collation this embedding picks for SQL text ordering). -/
def charListLt : List Char → List Char → Bool
  | [], [] => false
  | [], _ :: _ => true
  | _ :: _, [] => false
  | a :: as, b :: bs =>
    if decide (a < b) then true
    else if decide (b < a) then false
    else charListLt as bs

/-- The comparison of `ORDER BY "seqnames", "start"`. -/
def chromStartLe (a b : PosRow) : Bool :=
  charListLt a.seqnames.toList b.seqnames.toList ||
    (decide (a.seqnames = b.seqnames) && decide (a.start ≤ b.start))

/-! ## Allow-list cache (`load_cell_line_ids`) -/

/-- Embedding of `load_cell_line_ids`.  The backing membership file is
`none` when absent and otherwise a list of rows whose `ID` field is `none`
when unparsable (such rows are skipped).  With no cell tissue requested, or a
missing file, the result is the empty list. -/
def loadCellLineIds (file : Option (List (Option Int))) (cellTissue : Option String) :
    List Int :=
  match cellTissue with
  | none => []
  | some _ =>
    match file with
    | none => []
    | some rows => rows.filterMap (fun r => r)

/-- The allow-list filter a search runs with: `none` when no cell line was
requested, otherwise the resolved id list (possibly empty). -/
def resolveAllowed (cellLine : Option String)
    (allowFile : Option (List (Option Int))) : Option (List Int) :=
  match cellLine with
  | none => none
  | some cl => some (loadCellLineIds allowFile (some cl))

/-! ## Count cache (`load_tf_count_data`, `get_tf_count_from_csv`) -/

/-- The evidence filter: the `tfbs_type` values `'all'`, `'chip'` and
`'predicted'` dispatched on by the source (any other request string falls into
the `'all'` branch of the SQL builder). -/
inductive TfbsType where
  | all
  | chip
  | predicted
deriving DecidableEq

/-- The three counters accumulated per `(cell_tissue, tf_name)` key. -/
structure Counts where
  all : Int
  chip : Int
  predicted : Int
deriving DecidableEq

/-- The in-memory count mapping: `none` models an absent dictionary key. -/
abbrev CountMap := String × String → Option Counts

/-- The fresh entry `setdefault` inserts. -/
def zeroCounts : Counts := ⟨0, 0, 0⟩

/-- A row of the raw count CSV; `count_of_id` is `none` when `int(...)` would
raise (the row is then skipped). -/
structure CountCsvRow where
  cell_tissue : String
  tfbs : String
  predicted_tfbs : String
  count_of_id : Option Int

/-- `mapping.setdefault(key, zero)` followed by an in-place counter update. -/
def updateKey (m : CountMap) (k : String × String) (f : Counts → Counts) : CountMap :=
  fun q => if q = k then some (f ((m k).getD zeroCounts)) else m q

/-- The first `if` block of the CSV accumulation loop of
`load_tf_count_data`: when both the tissue and the confirmed name are
non-empty, the confirmed-name key gains `count` on `chip` and on `all`. -/
def addCsvRowFirst (m : CountMap) (ct tf : String) (count : Int) : CountMap :=
  if ct ≠ "" ∧ tf ≠ "" then
    updateKey m (ct, tf) (fun e => { e with chip := e.chip + count, all := e.all + count })
  else m

/-- The second `if` block of the CSV accumulation loop: when both the tissue
and the predicted name are non-empty, the predicted-name key gains `count` on
`predicted` and on `all`. -/
def addCsvRowSecond (m : CountMap) (ct ptf : String) (count : Int) : CountMap :=
  if ct ≠ "" ∧ ptf ≠ "" then
    updateKey m (ct, ptf)
      (fun e => { e with predicted := e.predicted + count, all := e.all + count })
  else m

/-- One iteration of the CSV accumulation loop of `load_tf_count_data`: a row
whose count fails to parse is skipped; otherwise the confirmed-name block runs
first and the predicted-name block runs on its result. -/
def addCsvRow (m : CountMap) (r : CountCsvRow) : CountMap :=
  match r.count_of_id with
  | none => m
  | some count =>
    addCsvRowSecond (addCsvRowFirst m (stripS r.cell_tissue) (stripS r.tfbs) count)
      (stripS r.cell_tissue) (stripS r.predicted_tfbs) count

/-- Embedding of the CSV-accumulation part of `load_tf_count_data` (the
pickle snapshot and in-memory tiers reproduce this mapping bit-identically
when fresh, so the built mapping is the authoritative value). -/
def loadTfCountData (rows : List CountCsvRow) : CountMap :=
  rows.foldl addCsvRow (fun _ => none)

/-- Embedding of `get_tf_count_from_csv`: default entry on an absent key,
then the counter selected by the evidence filter. -/
def getTfCountFromCsv (m : CountMap) (cellTissue tfName : String) (t : TfbsType) : Int :=
  let counts := (m (cellTissue, tfName)).getD zeroCounts
  match t with
  | .all => counts.all
  | .chip => counts.chip
  | .predicted => counts.predicted

/-! ## Single-query search engine -/

/-- SQL `"ID" = ANY(allowed)`; `none` means no allow-list filter requested. -/
def idAllowed (allowed : Option (List Int)) (r : PosRow) : Bool :=
  match allowed with
  | none => true
  | some ids => decide (r.id ∈ ids)

/-- The `WHERE` clause of the location queries: chromosome equality, full
containment when a region is present, and the allow-list membership. -/
def locWhere (chrom : String) (region : Option (Int × Int))
    (allowed : Option (List Int)) (r : PosRow) : Bool :=
  decide (r.seqnames = chrom) &&
    (match region with
     | none => true
     | some (s, e) => decide (s ≤ r.start) && decide (r.stop ≤ e)) &&
  idAllowed allowed r

/-- The store part of `search_by_location`: `COUNT(*)` of the matching rows,
the matching rows ordered by `start` (windowed unless `noPag`), then the
Python coordinate deduplication. -/
def searchByLocationCore (positions : List PosRow) (chrom : String)
    (region : Option (Int × Int)) (allowed : Option (List Int))
    (offset limit : Nat) (noPag : Bool) : List PosRow × Int :=
  let matched := positions.filter (locWhere chrom region allowed)
  let count : Int := matched.length
  let fetched := sortRows startLe matched
  let windowed := if noPag then fetched else window offset limit fetched
  (dedupBy coordKey [] windowed, count)

/-- Embedding of `search_by_location`, including the allow-list resolution and
its empty-set short circuit. -/
def searchByLocation (positions : List PosRow) (chrom : String)
    (region : Option (Int × Int)) (cellLine : Option String)
    (allowFile : Option (List (Option Int))) (offset limit : Nat)
    (noPag : Bool) : List PosRow × Int :=
  match cellLine with
  | none => searchByLocationCore positions chrom region none offset limit noPag
  | some cl =>
    let allowed := loadCellLineIds allowFile (some cl)
    if allowed.isEmpty then ([], 0)
    else searchByLocationCore positions chrom region (some allowed) offset limit noPag

/-- The name condition built by `_get_name_condition_and_params`. -/
def nameWhere (t : TfbsType) (term : String) (n : NameRow) : Bool :=
  match t with
  | .chip => decide (n.tfbs = some term)
  | .predicted => decide (n.predicted = some term)
  | .all => decide (n.tfbs = some term) || decide (n.predicted = some term)

/-- SQL `EXISTS (SELECT 1 FROM "TFBS_name" n WHERE n."ID" = p."ID" AND cond)`. -/
def existsNameRow (names : List NameRow) (cond : NameRow → Bool) (p : PosRow) : Bool :=
  names.any (fun n => decide (n.id = p.id) && cond n)

/-- SQL `SELECT DISTINCT p.* FROM "TFBS_position" p WHERE [allow] AND EXISTS
(...)`: filter in store iteration order, then keep-first distinct rows. -/
def nameFetchRows (store : Store) (cond : NameRow → Bool)
    (allowed : Option (List Int)) : List PosRow :=
  dedupBy (fun r => r) []
    (store.positions.filter (fun p => idAllowed allowed p && existsNameRow store.names cond p))

/-- The `tfbs_name_counts` lookup of `search_by_tf_name` (`fetchone` on
`WHERE tfbs = term`, then the column picked by `tfbs_type`, defaulting to 0
when no row matches). -/
def singleNameCountFromStore (store : Store) (term : String) (t : TfbsType) : Int :=
  match (store.nameCounts.filter (fun r => decide (r.tfbs = term))).head? with
  | none => 0
  | some r =>
    match t with
    | .chip => r.tfbsCount
    | .predicted => r.predictedCount
    | .all => r.allCount

/-- Embedding of `search_by_tf_name`: CSV-backed count when a cell line is
active (after the empty-allow-list short circuit), aggregate-table count
otherwise; distinct joined rows, windowed unless `noPag`, then coordinate
deduplication. -/
def searchByTfName (store : Store) (term : String) (cellLine : Option String)
    (allowFile : Option (List (Option Int))) (csv : CountMap) (t : TfbsType)
    (offset limit : Nat) (noPag : Bool) : List PosRow × Int :=
  match cellLine with
  | some cl =>
    let allowed := loadCellLineIds allowFile (some cl)
    if allowed.isEmpty then ([], 0)
    else
      let cnt := getTfCountFromCsv csv cl term t
      let rows := nameFetchRows store (nameWhere t term) (some allowed)
      let windowed := if noPag then rows else window offset limit rows
      (dedupBy coordKey [] windowed, cnt)
  | none =>
    let cnt := singleNameCountFromStore store term t
    let rows := nameFetchRows store (nameWhere t term) none
    let windowed := if noPag then rows else window offset limit rows
    (dedupBy coordKey [] windowed, cnt)

/-! ## Batch search engine -/

/-- The `IN`-based name condition of `batch_search_by_tf_name`. -/
def batchNameWhere (t : TfbsType) (terms : List String) (n : NameRow) : Bool :=
  match t with
  | .chip => terms.any (fun s => decide (n.tfbs = some s))
  | .predicted => terms.any (fun s => decide (n.predicted = some s))
  | .all =>
    terms.any (fun s => decide (n.tfbs = some s)) ||
      terms.any (fun s => decide (n.predicted = some s))

/-- The `tfbs_name_counts` aggregation of `batch_search_by_tf_name`
(`WHERE tfbs IN (terms)`, summing the column picked by `tfbs_type`).  A term
appearing twice in `terms` matches the same table rows once. -/
def batchNameCountFromStore (store : Store) (terms : List String) (t : TfbsType) : Int :=
  let rows := store.nameCounts.filter (fun r => decide (r.tfbs ∈ terms))
  match t with
  | .chip => (rows.map (fun r => r.tfbsCount)).sum
  | .predicted => (rows.map (fun r => r.predictedCount)).sum
  | .all => (rows.map (fun r => r.allCount)).sum

/-- Embedding of `batch_search_by_tf_name`.  With a cell line active the total
count sums the CSV count once per element of `terms` (duplicates counted
repeatedly); rows are windowed and then coordinate-deduplicated. -/
def batchSearchByTfName (store : Store) (terms : List String)
    (cellLine : Option String) (allowFile : Option (List (Option Int)))
    (csv : CountMap) (t : TfbsType) (offset limit : Nat) (noPag : Bool) :
    List PosRow × Int :=
  if terms.isEmpty then ([], 0)
  else
    match cellLine with
    | some cl =>
      let allowed := loadCellLineIds allowFile (some cl)
      if allowed.isEmpty then ([], 0)
      else
        let cnt := (terms.map (fun s => getTfCountFromCsv csv cl s t)).sum
        let rows := nameFetchRows store (batchNameWhere t terms) (some allowed)
        let windowed := if noPag then rows else window offset limit rows
        (dedupBy coordKey [] windowed, cnt)
    | none =>
      let cnt := batchNameCountFromStore store terms t
      let rows := nameFetchRows store (batchNameWhere t terms) none
      let windowed := if noPag then rows else window offset limit rows
      (dedupBy coordKey [] windowed, cnt)

/-- The combined chromosome-only fetch of `batch_search_by_location`
(`WHERE "seqnames" IN (...) ORDER BY "seqnames", "start"`). -/
def chrOnlyFetch (positions : List PosRow) (chrs : List String)
    (allowed : Option (List Int)) : List PosRow :=
  sortRows chromStartLe
    (positions.filter (fun r => decide (r.seqnames ∈ chrs) && idAllowed allowed r))

/-- One region fetch of `batch_search_by_location`
(`WHERE "seqnames" = c AND "start" >= s AND "end" <= e ORDER BY "start"`). -/
def regionFetch (positions : List PosRow) (chrom : String) (s e : Int)
    (allowed : Option (List Int)) : List PosRow :=
  sortRows startLe (positions.filter (locWhere chrom (some (s, e)) allowed))

/-- The chromosome-only sub-list split off by `batch_search_by_location`
(input order preserved). -/
def chrOnlyOf (locations : List (String × Option (Int × Int))) : List String :=
  locations.filterMap (fun q => match q.2 with | none => some q.1 | some _ => none)

/-- The region sub-list split off by `batch_search_by_location` (input order
preserved). -/
def regionsOf (locations : List (String × Option (Int × Int))) :
    List (String × Int × Int) :=
  locations.filterMap (fun q => match q.2 with | none => none | some (s, e) => some (q.1, s, e))

/-- Embedding of `batch_search_by_location`.  Chromosome-only queries are
combined into one `IN` query; each region query is issued individually; the
same offset/limit window is applied to each of those queries separately; the
counts are summed per sub-query; the concatenated rows (chromosome-only block
first, then regions in input order) are coordinate-deduplicated at the end. -/
def batchSearchByLocation (positions : List PosRow)
    (locations : List (String × Option (Int × Int))) (cellLine : Option String)
    (allowFile : Option (List (Option Int))) (offset limit : Nat) (noPag : Bool) :
    List PosRow × Int :=
  if locations.isEmpty then ([], 0)
  else
    let go := fun (allowed : Option (List Int)) =>
      let chrOnly := chrOnlyOf locations
      let regions := regionsOf locations
      let chrCount : Int :=
        if chrOnly.isEmpty then 0
        else ((positions.filter
          (fun r => decide (r.seqnames ∈ chrOnly) && idAllowed allowed r)).length : Int)
      let regionCount : Int :=
        (regions.map (fun q =>
          ((positions.filter (locWhere q.1 (some (q.2.1, q.2.2)) allowed)).length : Int))).sum
      let chrRows :=
        if chrOnly.isEmpty then []
        else if noPag then chrOnlyFetch positions chrOnly allowed
        else window offset limit (chrOnlyFetch positions chrOnly allowed)
      let regionRows := regions.flatMap (fun q =>
        if noPag then regionFetch positions q.1 q.2.1 q.2.2 allowed
        else window offset limit (regionFetch positions q.1 q.2.1 q.2.2 allowed))
      (dedupBy coordKey [] (chrRows ++ regionRows), chrCount + regionCount)
    match cellLine with
    | none => go none
    | some cl =>
      let allowed := loadCellLineIds allowFile (some cl)
      if allowed.isEmpty then ([], 0) else go (some allowed)

/-! ## Batch view (`BatchTFBSViewSet.list`) -/

/-- The name-term partition built by the loop of `BatchTFBSViewSet.list`:
every parsed query that is not a genomic location, in input order, with
duplicates preserved. -/
def batchNameTerms (fileContent : String) : List String :=
  (parseBatchFile fileContent).filter (fun q => !(isGenomicLocation q))

/-- The location partition built by the loop of `BatchTFBSViewSet.list`:
every parsed query that is a genomic location, parsed, in input order, with
duplicates preserved. -/
def batchLocations (fileContent : String) : List (String × Option (Int × Int)) :=
  (parseBatchFile fileContent).filterMap
    (fun q => if isGenomicLocation q then parseGenomicLocationL q.toList else none)

/-- Embedding of the search portion of `BatchTFBSViewSet.list` (after the
empty-content guard): parse the uploaded text, partition queries in input
order into name terms (as classified by `is_genomic_location`) and parsed
locations, run the two batch searches paginated, and return the concatenated
rows (name block first) with the summed total count.  No deduplication is
applied across the two blocks. -/
def batchViewList (store : Store) (fileContent : String)
    (cellLine : Option String) (allowFile : Option (List (Option Int)))
    (csv : CountMap) (t : TfbsType) (offset limit : Nat) : List PosRow × Int :=
  let tfNames := batchNameTerms fileContent
  let locations := batchLocations fileContent
  let tfPart :=
    if tfNames.isEmpty then ([], (0 : Int))
    else batchSearchByTfName store tfNames cellLine allowFile csv t offset limit false
  let locPart :=
    if locations.isEmpty then ([], (0 : Int))
    else batchSearchByLocation store.positions locations cellLine allowFile offset limit false
  (tfPart.1 ++ locPart.1, tfPart.2 + locPart.2)

/-! ## Error propagation (`search_by_location` re-raise, `TFBSViewSet.list`) -/

/-- A raised store exception: the human-readable message (`str(e)`) and the
full traceback. -/
structure StoreErr where
  msg : String
  trace : String
deriving DecidableEq

/-- The DataTables response envelope assembled by `TFBSViewSet.list`: the
`error`/`details` keys are present only on the exception path. -/
structure ApiResponse where
  draw : Int
  recordsTotal : Int
  recordsFiltered : Int
  data : List PosRow
  error : Option String
  details : Option String
deriving DecidableEq

/-- Embedding of `search_by_location` over a fallible positions fetch: the
`except ... raise` block re-raises any store failure unchanged. -/
def searchByLocationExc (posFetch : Except StoreErr (List PosRow)) (chrom : String)
    (region : Option (Int × Int)) (allowed : Option (List Int))
    (offset limit : Nat) (noPag : Bool) : Except StoreErr (List PosRow × Int) :=
  match posFetch with
  | .error e => .error e
  | .ok positions => .ok (searchByLocationCore positions chrom region allowed offset limit noPag)

/-- Embedding of the response assembly shared verbatim by `TFBSViewSet.list`
and `BatchTFBSViewSet.list`: a successful search becomes a plain envelope
(no `error`/`details` keys); an exception becomes a zero-count envelope
carrying `str(e)` and, only when `settings.DEBUG`, the full traceback. -/
def tfbsViewSetList (draw : Int) (result : Except StoreErr (List PosRow × Int))
    (debug : Bool) : ApiResponse :=
  match result with
  | .ok (rows, total) => ⟨draw, total, total, rows, none, none⟩
  | .error e =>
    ⟨draw, 0, 0, [], some e.msg,
      some (if debug then e.trace else "See server logs for details")⟩

/-- Embedding of `search_by_tf_name` over a fallible store: the allow-list
resolution and its empty short circuit run before the `try` block and touch
no store; once inside, any store failure is re-raised unchanged by the
`except ... raise` handler, so the result is the error itself. -/
def searchByTfNameExc (store : Except StoreErr Store) (term : String)
    (cellLine : Option String) (allowFile : Option (List (Option Int)))
    (csv : CountMap) (t : TfbsType) (offset limit : Nat) (noPag : Bool) :
    Except StoreErr (List PosRow × Int) :=
  match cellLine with
  | some cl =>
    if (loadCellLineIds allowFile (some cl)).isEmpty then .ok ([], 0)
    else store.map (fun st => searchByTfName st term (some cl) allowFile csv t offset
      limit noPag)
  | none =>
    store.map (fun st => searchByTfName st term none allowFile csv t offset limit noPag)

/-- Embedding of `batch_search_by_tf_name` over a fallible store (same
re-raise contract; the empty-terms and empty-allow-list returns precede any
store use). -/
def batchSearchByTfNameExc (store : Except StoreErr Store) (terms : List String)
    (cellLine : Option String) (allowFile : Option (List (Option Int)))
    (csv : CountMap) (t : TfbsType) (offset limit : Nat) (noPag : Bool) :
    Except StoreErr (List PosRow × Int) :=
  if terms.isEmpty then .ok ([], 0)
  else
    match cellLine with
    | some cl =>
      if (loadCellLineIds allowFile (some cl)).isEmpty then .ok ([], 0)
      else store.map (fun st => batchSearchByTfName st terms (some cl) allowFile csv t
        offset limit noPag)
    | none =>
      store.map (fun st => batchSearchByTfName st terms none allowFile csv t offset
        limit noPag)

/-- Embedding of `batch_search_by_location` over a fallible positions fetch
(same re-raise contract; the empty-locations and empty-allow-list returns
precede any store use). -/
def batchSearchByLocationExc (posFetch : Except StoreErr (List PosRow))
    (locations : List (String × Option (Int × Int))) (cellLine : Option String)
    (allowFile : Option (List (Option Int))) (offset limit : Nat) (noPag : Bool) :
    Except StoreErr (List PosRow × Int) :=
  if locations.isEmpty then .ok ([], 0)
  else
    match cellLine with
    | some cl =>
      if (loadCellLineIds allowFile (some cl)).isEmpty then .ok ([], 0)
      else posFetch.map (fun ps => batchSearchByLocation ps locations (some cl)
        allowFile offset limit noPag)
    | none =>
      posFetch.map (fun ps => batchSearchByLocation ps locations none allowFile offset
        limit noPag)

/-- Embedding of the search portion of `BatchTFBSViewSet.list` over a
fallible store: the two batch calls run inside one `try`; the first store
failure propagates to the view's exception handler unchanged. -/
def batchViewListExc (store : Except StoreErr Store) (fileContent : String)
    (cellLine : Option String) (allowFile : Option (List (Option Int)))
    (csv : CountMap) (t : TfbsType) (offset limit : Nat) :
    Except StoreErr (List PosRow × Int) :=
  match (if (batchNameTerms fileContent).isEmpty then Except.ok ([], (0 : Int))
         else batchSearchByTfNameExc store (batchNameTerms fileContent) cellLine
           allowFile csv t offset limit false) with
  | .error e => .error e
  | .ok tfPart =>
    match (if (batchLocations fileContent).isEmpty then Except.ok ([], (0 : Int))
           else batchSearchByLocationExc (store.map Store.positions)
             (batchLocations fileContent) cellLine allowFile offset limit false) with
    | .error e => .error e
    | .ok locPart => .ok (tfPart.1 ++ locPart.1, tfPart.2 + locPart.2)

/-! ## Claim-side description and concrete inputs used by the analysis -/

/-- The batch page as claim C1 describes it: one window over the full
concatenation of all fetched rows, then coordinate deduplication of the
windowed slice.  Follows the spec wording, for comparison with the code. -/
def claimedBatchPage (nameRows locRows : List PosRow) (offset limit : Nat) :
    List PosRow :=
  dedupBy coordKey [] (window offset limit (nameRows ++ locRows))

/-- Concrete row: id 1, chr1 10-20. -/
def rowA : PosRow := ⟨1, "chr1", 10, 20⟩

/-- Concrete row: id 2, chr1 30-40. -/
def rowB : PosRow := ⟨2, "chr1", 30, 40⟩

/-- Concrete store: both rows carry confirmed name X. -/
def exStore : Store :=
  ⟨[rowA, rowB], [⟨1, some "X", none⟩, ⟨2, some "X", none⟩], [⟨"X", 2, 2, 0⟩]⟩

/-- Concrete empty CSV count mapping. -/
def emptyCsv : CountMap := fun _ => none

/-- Concrete CSV count mapping: tissue t with term X counted 3 times. -/
def exCsv : CountMap :=
  fun k => if k = ("t", "X") then some ⟨3, 3, 0⟩ else none

/-! ## Lemmas about the shared list machinery -/

theorem dedupBy_sublist {α κ : Type} [DecidableEq κ] (key : α → κ) (seen : List κ) :
    ∀ l : List α, (dedupBy key seen l).Sublist l := by
  intro l
  induction l generalizing seen with
  | nil => simp [dedupBy]
  | cons x xs ih =>
    simp only [dedupBy]
    split
    · exact (ih seen).cons x
    · exact (ih (key x :: seen)).cons₂ x

theorem dedupBy_key_not_seen {α κ : Type} [DecidableEq κ] (key : α → κ) :
    ∀ (l : List α) (seen : List κ) (k : κ),
      k ∈ (dedupBy key seen l).map key → k ∉ seen := by
  intro l
  induction l with
  | nil => intro seen k h; simp [dedupBy] at h
  | cons x xs ih =>
    intro seen k h
    simp only [dedupBy] at h
    split at h
    · exact ih seen k h
    · simp only [List.map_cons, List.mem_cons] at h
      rcases h with h | h
      · subst h
        assumption
      · intro hk
        exact ih (key x :: seen) k h (List.mem_cons_of_mem _ hk)

theorem dedupBy_nodup_keys {α κ : Type} [DecidableEq κ] (key : α → κ) :
    ∀ (l : List α) (seen : List κ), ((dedupBy key seen l).map key).Nodup := by
  intro l
  induction l with
  | nil => intro seen; simp [dedupBy]
  | cons x xs ih =>
    intro seen
    simp only [dedupBy]
    split
    · exact ih seen
    · simp only [List.map_cons, List.nodup_cons]
      refine ⟨fun hmem => ?_, ih (key x :: seen)⟩
      exact dedupBy_key_not_seen key xs (key x :: seen) (key x) hmem (List.mem_cons_self _ _)

theorem dedupBy_covers {α κ : Type} [DecidableEq κ] (key : α → κ) :
    ∀ (l : List α) (seen : List κ) (r : α), r ∈ l →
      key r ∈ seen ∨ key r ∈ (dedupBy key seen l).map key := by
  intro l
  induction l with
  | nil => intro seen r h; simp at h
  | cons x xs ih =>
    intro seen r h
    simp only [dedupBy]
    rcases List.mem_cons.mp h with h | h
    · subst h
      by_cases hx : key r ∈ seen
      · exact Or.inl hx
      · right
        simp only [if_neg hx, List.map_cons]
        exact List.mem_cons_self _ _
    · by_cases hx : key x ∈ seen
      · simpa [if_pos hx] using ih seen r h
      · simp only [if_neg hx, List.map_cons]
        rcases ih (key x :: seen) r h with hm | hm
        · rcases List.mem_cons.mp hm with hm | hm
          · exact Or.inr (List.mem_cons.mpr (Or.inl hm))
          · exact Or.inl hm
        · exact Or.inr (List.mem_cons.mpr (Or.inr hm))

theorem dedupBy_keeps_first {α κ : Type} [DecidableEq κ] (key : α → κ) (r : α) :
    ∀ (l₁ : List α) (seen : List κ) (l₂ : List α), key r ∉ seen →
      (∀ p ∈ l₁, key p ≠ key r) → r ∈ dedupBy key seen (l₁ ++ r :: l₂) := by
  intro l₁
  induction l₁ with
  | nil =>
    intro seen l₂ hseen _
    simp only [List.nil_append, dedupBy, if_neg hseen]
    exact List.mem_cons_self _ _
  | cons p ps ih =>
    intro seen l₂ hseen hne
    simp only [List.cons_append, dedupBy]
    split
    · exact ih seen l₂ hseen (fun q hq => hne q (List.mem_cons_of_mem _ hq))
    · refine List.mem_cons_of_mem _ (ih (key p :: seen) l₂ ?_ ?_)
      · intro hmem
        rcases List.mem_cons.mp hmem with hmem | hmem
        · exact hne p (List.mem_cons_self _ _) hmem.symm
        · exact hseen hmem
      · exact fun q hq => hne q (List.mem_cons_of_mem _ hq)

theorem window_sublist (offset limit : Nat) (l : List PosRow) :
    (window offset limit l).Sublist l :=
  (List.take_sublist _ _).trans (List.drop_sublist _ _)

theorem mem_insertSorted (le : PosRow → PosRow → Bool) (r b : PosRow) :
    ∀ l : List PosRow, b ∈ insertSorted le r l ↔ b = r ∨ b ∈ l := by
  intro l
  induction l with
  | nil => simp [insertSorted]
  | cons x xs ih =>
    simp only [insertSorted]
    split
    · simp [List.mem_cons]
    · simp only [List.mem_cons, ih]
      tauto

theorem pairwise_insertSorted_start (r : PosRow) :
    ∀ l : List PosRow, l.Pairwise (fun a b => a.start ≤ b.start) →
      (insertSorted startLe r l).Pairwise (fun a b => a.start ≤ b.start) := by
  intro l
  induction l with
  | nil => intro _; simp [insertSorted]
  | cons x xs ih =>
    intro h
    rw [List.pairwise_cons] at h
    simp only [insertSorted]
    split
    · rename_i hle
      have hrx : r.start ≤ x.start := by
        simpa [startLe] using hle
      rw [List.pairwise_cons]
      refine ⟨?_, List.pairwise_cons.mpr h⟩
      intro b hb
      rcases List.mem_cons.mp hb with hb | hb
      · exact hb ▸ hrx
      · exact le_trans hrx (h.1 b hb)
    · rename_i hle
      have hxr : x.start ≤ r.start := by
        have := hle
        simp only [startLe, decide_eq_true_eq] at this
        omega
      rw [List.pairwise_cons]
      refine ⟨?_, ih h.2⟩
      intro b hb
      rcases (mem_insertSorted startLe r b xs).mp hb with hb | hb
      · exact hb ▸ hxr
      · exact h.1 b hb

theorem pairwise_sortRows_start :
    ∀ l : List PosRow, (sortRows startLe l).Pairwise (fun a b => a.start ≤ b.start) := by
  intro l
  induction l with
  | nil => simp [sortRows]
  | cons r rs ih => exact pairwise_insertSorted_start r (sortRows startLe rs) ih

/-! ## Collapse lemmas for degenerate search inputs -/

theorem filter_false_eq_nil {α : Type} (p : α → Bool) :
    ∀ l : List α, (∀ a ∈ l, p a = false) → l.filter p = [] := by
  intro l
  induction l with
  | nil => intro _; rfl
  | cons x xs ih =>
    intro h
    simp only [List.filter_cons, h x (List.mem_cons_self _ _), Bool.false_eq_true,
      if_false]
    exact ih (fun a ha => h a (List.mem_cons_of_mem _ ha))

theorem batchNameWhere_nil (t : TfbsType) (n : NameRow) :
    batchNameWhere t [] n = false := by
  cases t <;> simp [batchNameWhere]

theorem nameFetchRows_nil_terms (store : Store) (t : TfbsType)
    (allowed : Option (List Int)) :
    nameFetchRows store (batchNameWhere t []) allowed = [] := by
  unfold nameFetchRows
  rw [filter_false_eq_nil]
  · rfl
  · intro p _
    simp [existsNameRow, batchNameWhere_nil]

theorem idAllowed_some_nil (r : PosRow) : idAllowed (some []) r = false := by
  simp [idAllowed]

theorem nameFetchRows_empty_allow (store : Store) (cond : NameRow → Bool) :
    nameFetchRows store cond (some []) = [] := by
  unfold nameFetchRows
  rw [filter_false_eq_nil]
  · rfl
  · intro p _
    simp [idAllowed_some_nil]

theorem chrOnlyFetch_empty_allow (positions : List PosRow) (chrs : List String) :
    chrOnlyFetch positions chrs (some []) = [] := by
  unfold chrOnlyFetch
  rw [filter_false_eq_nil]
  · rfl
  · intro p _
    simp [idAllowed_some_nil]

theorem regionFetch_empty_allow (positions : List PosRow) (chrom : String)
    (s e : Int) : regionFetch positions chrom s e (some []) = [] := by
  unfold regionFetch
  rw [filter_false_eq_nil]
  · rfl
  · intro p _
    simp [locWhere, idAllowed_some_nil]

theorem window_nil (offset limit : Nat) : window offset limit [] = [] := by
  simp [window]

/-! ## Factoring the batch search through the fetch primitives -/

theorem batchTfName_rows_factor (store : Store) (terms : List String)
    (cellLine : Option String) (allowFile : Option (List (Option Int)))
    (csv : CountMap) (t : TfbsType) (offset limit : Nat) :
    (batchSearchByTfName store terms cellLine allowFile csv t offset limit false).1 =
      dedupBy coordKey [] (window offset limit
        (nameFetchRows store (batchNameWhere t terms)
          (resolveAllowed cellLine allowFile))) := by
  by_cases hterms : terms.isEmpty
  · have ht : terms = [] := by
      cases terms with
      | nil => rfl
      | cons a as => simp [List.isEmpty] at hterms
    subst ht
    rw [nameFetchRows_nil_terms, window_nil]
    simp [batchSearchByTfName, dedupBy]
  · cases cellLine with
    | none =>
      simp [batchSearchByTfName, hterms, resolveAllowed]
    | some cl =>
      by_cases hallow : (loadCellLineIds allowFile (some cl)).isEmpty
      · have ha : loadCellLineIds allowFile (some cl) = [] := by
          cases h : loadCellLineIds allowFile (some cl) with
          | nil => rfl
          | cons a as => rw [h] at hallow; simp [List.isEmpty] at hallow
        simp only [batchSearchByTfName, hterms, resolveAllowed, ha]
        rw [nameFetchRows_empty_allow, window_nil]
        simp [dedupBy]
      · simp [batchSearchByTfName, hterms, hallow, resolveAllowed]

theorem batchLoc_rows_factor (positions : List PosRow)
    (locations : List (String × Option (Int × Int))) (cellLine : Option String)
    (allowFile : Option (List (Option Int))) (offset limit : Nat) :
    (batchSearchByLocation positions locations cellLine allowFile offset limit false).1 =
      dedupBy coordKey []
        ((if (chrOnlyOf locations).isEmpty then []
          else window offset limit
            (chrOnlyFetch positions (chrOnlyOf locations)
              (resolveAllowed cellLine allowFile))) ++
         (regionsOf locations).flatMap (fun q =>
           window offset limit
             (regionFetch positions q.1 q.2.1 q.2.2
               (resolveAllowed cellLine allowFile)))) := by
  by_cases hloc : locations.isEmpty
  · have hl : locations = [] := by
      cases locations with
      | nil => rfl
      | cons a as => simp [List.isEmpty] at hloc
    subst hl
    simp [batchSearchByLocation, chrOnlyOf, regionsOf, dedupBy]
  · cases cellLine with
    | none =>
      simp [batchSearchByLocation, hloc, resolveAllowed]
    | some cl =>
      by_cases hallow : (loadCellLineIds allowFile (some cl)).isEmpty
      · have ha : loadCellLineIds allowFile (some cl) = [] := by
          cases h : loadCellLineIds allowFile (some cl) with
          | nil => rfl
          | cons a as => rw [h] at hallow; simp [List.isEmpty] at hallow
        simp only [batchSearchByLocation, hloc, resolveAllowed, ha]
        rw [chrOnlyFetch_empty_allow, window_nil]
        have hreg : ∀ q ∈ regionsOf locations,
            window offset limit (regionFetch positions q.1 q.2.1 q.2.2 (some [])) = [] := by
          intro q _
          rw [regionFetch_empty_allow, window_nil]
        simp only [Bool.false_eq_true, if_false, List.flatMap_eq_nil_iff.mpr hreg]
        simp [dedupBy]
      · simp [batchSearchByLocation, hloc, hallow, resolveAllowed]

theorem batchLoc_count_factor (positions : List PosRow)
    (locations : List (String × Option (Int × Int))) (cellLine : Option String)
    (allowFile : Option (List (Option Int))) (offset limit : Nat) (noPag : Bool) :
    (batchSearchByLocation positions locations cellLine allowFile offset limit
      noPag).2 =
      (if (chrOnlyOf locations).isEmpty then 0
       else ((positions.filter (fun r => decide (r.seqnames ∈ chrOnlyOf locations) &&
         idAllowed (resolveAllowed cellLine allowFile) r)).length : Int)) +
      ((regionsOf locations).map (fun q =>
        ((positions.filter (locWhere q.1 (some (q.2.1, q.2.2))
          (resolveAllowed cellLine allowFile))).length : Int))).sum := by
  by_cases hloc : locations.isEmpty
  · have hl : locations = [] := by
      cases locations with
      | nil => rfl
      | cons a as => simp [List.isEmpty] at hloc
    subst hl
    simp [batchSearchByLocation, chrOnlyOf, regionsOf]
  · cases cellLine with
    | none =>
      simp [batchSearchByLocation, hloc, resolveAllowed]
    | some cl =>
      by_cases hallow : (loadCellLineIds allowFile (some cl)).isEmpty
      · have ha : loadCellLineIds allowFile (some cl) = [] := by
          cases h : loadCellLineIds allowFile (some cl) with
          | nil => rfl
          | cons a as => rw [h] at hallow; simp [List.isEmpty] at hallow
        simp only [batchSearchByLocation, hloc, resolveAllowed, ha]
        have hchr : positions.filter (fun r =>
            decide (r.seqnames ∈ chrOnlyOf locations) &&
              idAllowed (some ([] : List Int)) r) = [] :=
          filter_false_eq_nil _ _ (fun r _ => by simp [idAllowed_some_nil])
        have hsum : ((regionsOf locations).map (fun q =>
            ((positions.filter (locWhere q.1 (some (q.2.1, q.2.2))
              (some ([] : List Int)))).length : Int))).sum = 0 := by
          apply List.sum_eq_zero
          intro x hx
          obtain ⟨q, hq, rfl⟩ := List.mem_map.mp hx
          rw [filter_false_eq_nil _ _
            (fun r _ => by simp [locWhere, idAllowed_some_nil])]
          rfl
        rw [hchr, hsum]
        simp
      · simp [batchSearchByLocation, hloc, hallow, resolveAllowed]

theorem isEmpty_eq_nil {α : Type} (l : List α) : l.isEmpty = true ↔ l = [] := by
  cases l <;> simp [List.isEmpty]

/-! ## Claim C1 -/

/-- Claim C1 is false on the code: for the concrete store `exStore` and the
batch input with name term X and chromosome-only location chr1, at
offset 0 / limit 1, the code returns the page `[rowA, rowA]` (the window was
applied separately to the name fetch and to the location fetch, and no
deduplication crossed the two blocks), while the claimed pipeline — one
window over the concatenation of all name-match rows and all location-match
rows, then deduplication of the windowed slice — yields `[rowA]`. -/
theorem claim_C1_counterexample :
    (batchViewList exStore "X\nchr1" none none emptyCsv .all 0 1).1 = [rowA, rowA]
  ∧ batchNameTerms "X\nchr1" = ["X"]
  ∧ batchLocations "X\nchr1" = [("chr1", none)]
  ∧ claimedBatchPage
      (nameFetchRows exStore (batchNameWhere .all ["X"]) none)
      (chrOnlyFetch exStore.positions ["chr1"] none) 0 1 = [rowA]
  ∧ ([rowA, rowA] : List PosRow) ≠ [rowA] :=
  ⟨by decide, by decide, by decide, by decide, by decide⟩

/-- Claim C1 amended: in a paginated `searchBatch` call the offset/limit
window is applied separately to each store fetch — once to the combined
name query, once to the combined chromosome-only query, and once per region
query — and coordinate deduplication is applied separately to the windowed
name rows and to the windowed location rows; the returned page is the
concatenation of the two deduplicated blocks with no further deduplication,
so a block may be shorter than `limit` when duplicates fall inside its
window, while the full page may repeat coordinates across blocks. -/
theorem claim_C1_amended (store : Store) (content : String)
    (cellLine : Option String) (allowFile : Option (List (Option Int)))
    (csv : CountMap) (t : TfbsType) (offset limit : Nat) :
    (batchViewList store content cellLine allowFile csv t offset limit).1 =
      dedupBy coordKey [] (window offset limit
        (nameFetchRows store (batchNameWhere t (batchNameTerms content))
          (resolveAllowed cellLine allowFile))) ++
      dedupBy coordKey []
        ((if (chrOnlyOf (batchLocations content)).isEmpty then []
          else window offset limit
            (chrOnlyFetch store.positions (chrOnlyOf (batchLocations content))
              (resolveAllowed cellLine allowFile))) ++
         (regionsOf (batchLocations content)).flatMap (fun q =>
           window offset limit
             (regionFetch store.positions q.1 q.2.1 q.2.2
               (resolveAllowed cellLine allowFile)))) := by
  have h1 : (if (batchNameTerms content).isEmpty then ([], (0 : Int))
      else batchSearchByTfName store (batchNameTerms content) cellLine allowFile csv t
        offset limit false).1 =
      dedupBy coordKey [] (window offset limit
        (nameFetchRows store (batchNameWhere t (batchNameTerms content))
          (resolveAllowed cellLine allowFile))) := by
    by_cases h : (batchNameTerms content).isEmpty
    · have ht : batchNameTerms content = [] := (isEmpty_eq_nil _).mp h
      rw [ht, nameFetchRows_nil_terms, window_nil]
      simp [dedupBy]
    · simp only [h, Bool.false_eq_true, if_false]
      exact batchTfName_rows_factor store (batchNameTerms content) cellLine allowFile csv t
        offset limit
  have h2 : (if (batchLocations content).isEmpty then ([], (0 : Int))
      else batchSearchByLocation store.positions (batchLocations content) cellLine
        allowFile offset limit false).1 =
      dedupBy coordKey []
        ((if (chrOnlyOf (batchLocations content)).isEmpty then []
          else window offset limit
            (chrOnlyFetch store.positions (chrOnlyOf (batchLocations content))
              (resolveAllowed cellLine allowFile))) ++
         (regionsOf (batchLocations content)).flatMap (fun q =>
           window offset limit
             (regionFetch store.positions q.1 q.2.1 q.2.2
               (resolveAllowed cellLine allowFile)))) := by
    by_cases h : (batchLocations content).isEmpty
    · have ht : batchLocations content = [] := (isEmpty_eq_nil _).mp h
      rw [ht]
      simp [chrOnlyOf, regionsOf, dedupBy]
    · simp only [h, Bool.false_eq_true, if_false]
      exact batchLoc_rows_factor store.positions (batchLocations content) cellLine
        allowFile offset limit
  calc (batchViewList store content cellLine allowFile csv t offset limit).1
      = (if (batchNameTerms content).isEmpty then ([], (0 : Int))
          else batchSearchByTfName store (batchNameTerms content) cellLine allowFile csv t
            offset limit false).1 ++
        (if (batchLocations content).isEmpty then ([], (0 : Int))
          else batchSearchByLocation store.positions (batchLocations content) cellLine
            allowFile offset limit false).1 := rfl
    _ = _ := by rw [h1, h2]

/-! ## Claim C3 -/

theorem nodup_keys_dedup (l : List PosRow) :
    ((dedupBy coordKey [] l).map coordKey).Nodup :=
  dedupBy_nodup_keys coordKey l []

/-- Claim C3 is false on the code: the merged batch page for the concrete
store `exStore` and input X / chr1 at offset 0 / limit 1 contains the
coordinate triple of `rowA` twice, because `BatchTFBSViewSet.list`
concatenates the name block and the location block without deduplicating
across them. -/
theorem claim_C3_counterexample :
    ¬ ((((batchViewList exStore "X\nchr1" none none emptyCsv .all 0 1).1).map
      coordKey).Nodup) := by
  decide

/-- Claim C3 amended: every page returned by a single search
(`search_by_location`, `search_by_tf_name`) and each block of a batch page
(`batch_search_by_tf_name`, `batch_search_by_location`) has pairwise-distinct
`(chromosome, start, end)` triples; the merged batch page, being the plain
concatenation of the two blocks, need not. -/
theorem claim_C3_amended :
    (∀ positions chrom region cellLine allowFile offset limit noPag,
      (((searchByLocation positions chrom region cellLine allowFile offset limit
        noPag).1).map coordKey).Nodup)
  ∧ (∀ store term cellLine allowFile csv t offset limit noPag,
      (((searchByTfName store term cellLine allowFile csv t offset limit
        noPag).1).map coordKey).Nodup)
  ∧ (∀ store terms cellLine allowFile csv t offset limit noPag,
      (((batchSearchByTfName store terms cellLine allowFile csv t offset limit
        noPag).1).map coordKey).Nodup)
  ∧ (∀ positions locations cellLine allowFile offset limit noPag,
      (((batchSearchByLocation positions locations cellLine allowFile offset limit
        noPag).1).map coordKey).Nodup) := by
  refine ⟨?_, ?_, ?_, ?_⟩
  · intro positions chrom region cellLine allowFile offset limit noPag
    cases cellLine with
    | none => exact nodup_keys_dedup _
    | some cl =>
      by_cases h : (loadCellLineIds allowFile (some cl)).isEmpty
      · have he : searchByLocation positions chrom region (some cl) allowFile offset
            limit noPag = ([], 0) := by
          simp [searchByLocation, h]
        rw [he]
        simp
      · have he : searchByLocation positions chrom region (some cl) allowFile offset
            limit noPag = searchByLocationCore positions chrom region
              (some (loadCellLineIds allowFile (some cl))) offset limit noPag := by
          simp [searchByLocation, h]
        rw [he]
        exact nodup_keys_dedup _
  · intro store term cellLine allowFile csv t offset limit noPag
    cases cellLine with
    | none => exact nodup_keys_dedup _
    | some cl =>
      by_cases h : (loadCellLineIds allowFile (some cl)).isEmpty
      · have he : searchByTfName store term (some cl) allowFile csv t offset limit
            noPag = ([], 0) := by
          simp [searchByTfName, h]
        rw [he]
        simp
      · have he : (searchByTfName store term (some cl) allowFile csv t offset limit
            noPag).1 = dedupBy coordKey []
              (if noPag then
                nameFetchRows store (nameWhere t term)
                  (some (loadCellLineIds allowFile (some cl)))
              else window offset limit
                (nameFetchRows store (nameWhere t term)
                  (some (loadCellLineIds allowFile (some cl))))) := by
          simp [searchByTfName, h]
        rw [he]
        exact nodup_keys_dedup _
  · intro store terms cellLine allowFile csv t offset limit noPag
    by_cases ht : terms.isEmpty
    · have he : batchSearchByTfName store terms cellLine allowFile csv t offset limit
          noPag = ([], 0) := by
        simp [batchSearchByTfName, ht]
      rw [he]
      simp
    · cases cellLine with
      | none =>
        have he : (batchSearchByTfName store terms none allowFile csv t offset limit
            noPag).1 = dedupBy coordKey []
              (if noPag then nameFetchRows store (batchNameWhere t terms) none
               else window offset limit
                (nameFetchRows store (batchNameWhere t terms) none)) := by
          simp [batchSearchByTfName, ht]
        rw [he]
        exact nodup_keys_dedup _
      | some cl =>
        by_cases h : (loadCellLineIds allowFile (some cl)).isEmpty
        · have he : batchSearchByTfName store terms (some cl) allowFile csv t offset
              limit noPag = ([], 0) := by
            simp [batchSearchByTfName, ht, h]
          rw [he]
          simp
        · have he : (batchSearchByTfName store terms (some cl) allowFile csv t offset
              limit noPag).1 = dedupBy coordKey []
                (if noPag then
                  nameFetchRows store (batchNameWhere t terms)
                    (some (loadCellLineIds allowFile (some cl)))
                 else window offset limit
                  (nameFetchRows store (batchNameWhere t terms)
                    (some (loadCellLineIds allowFile (some cl))))) := by
            simp [batchSearchByTfName, ht, h]
          rw [he]
          exact nodup_keys_dedup _
  · intro positions locations cellLine allowFile offset limit noPag
    by_cases hl : locations.isEmpty
    · have he : batchSearchByLocation positions locations cellLine allowFile offset
          limit noPag = ([], 0) := by
        simp [batchSearchByLocation, hl]
      rw [he]
      simp
    · cases cellLine with
      | none =>
        simp only [batchSearchByLocation, hl, Bool.false_eq_true, if_false]
        exact nodup_keys_dedup _
      | some cl =>
        by_cases h : (loadCellLineIds allowFile (some cl)).isEmpty
        · have he : batchSearchByLocation positions locations (some cl) allowFile
              offset limit noPag = ([], 0) := by
            simp [batchSearchByLocation, hl, h]
          rw [he]
          simp
        · simp only [batchSearchByLocation, hl, h, Bool.false_eq_true, if_false]
          exact nodup_keys_dedup _

/-! ## Claim C2 -/

theorem any_congr_of_mem_iff {α : Type} (p : α → Bool) (l₁ l₂ : List α)
    (h : ∀ s, s ∈ l₁ ↔ s ∈ l₂) : l₁.any p = l₂.any p := by
  rw [Bool.eq_iff_iff]
  simp only [List.any_eq_true]
  constructor
  · rintro ⟨x, hx, hp⟩
    exact ⟨x, (h x).mp hx, hp⟩
  · rintro ⟨x, hx, hp⟩
    exact ⟨x, (h x).mpr hx, hp⟩

theorem batchNameWhere_congr (t : TfbsType) (terms₁ terms₂ : List String)
    (h : ∀ s, s ∈ terms₁ ↔ s ∈ terms₂) (n : NameRow) :
    batchNameWhere t terms₁ n = batchNameWhere t terms₂ n := by
  cases t <;>
    simp only [batchNameWhere, any_congr_of_mem_iff _ terms₁ terms₂ h]

theorem nameFetchRows_congr (store : Store) (t : TfbsType) (terms₁ terms₂ : List String)
    (allowed : Option (List Int)) (h : ∀ s, s ∈ terms₁ ↔ s ∈ terms₂) :
    nameFetchRows store (batchNameWhere t terms₁) allowed =
      nameFetchRows store (batchNameWhere t terms₂) allowed := by
  unfold nameFetchRows
  congr 1
  apply List.filter_congr
  intro p _
  unfold existsNameRow
  congr 1
  refine congrArg _ (funext fun n => ?_)
  rw [batchNameWhere_congr t terms₁ terms₂ h]

theorem batchNameCountFromStore_congr (store : Store) (terms₁ terms₂ : List String)
    (t : TfbsType) (h : ∀ s, s ∈ terms₁ ↔ s ∈ terms₂) :
    batchNameCountFromStore store terms₁ t = batchNameCountFromStore store terms₂ t := by
  have hf : store.nameCounts.filter (fun r => decide (r.tfbs ∈ terms₁)) =
      store.nameCounts.filter (fun r => decide (r.tfbs ∈ terms₂)) := by
    apply List.filter_congr
    intro r _
    simp only [decide_eq_decide]
    exact h r.tfbs
  cases t <;> simp only [batchNameCountFromStore, hf]

/-- Claim C2 is false on the code, in two places.  First,
`BatchTFBSViewSet.list` does not deduplicate name terms —
`batchNameTerms "X\nX" = ["X", "X"]` — and with a tissue filter active the
total count sums the CSV count once per occurrence: with tissue t mapping
term X to count 3, the duplicated input yields `total_count = 6` while the
same input listed once yields 3, so a repeated term does not contribute its
count exactly once.  Second, the claim's closing clause fails too: a
repeated chromosome-only location query does NOT contribute its own count,
because `batch_search_by_location` merges all chromosome-only queries into
one `"seqnames" IN (...)` COUNT — the duplicated input chr1, chr1 yields
`total_count = 2` over a two-row chr1 store, not 2 + 2. -/
theorem claim_C2_counterexample :
    parseBatchFile "X\nX" = ["X", "X"]
  ∧ batchNameTerms "X\nX" = ["X", "X"]
  ∧ (batchViewList exStore "X\nX" (some "t") (some [some 1]) exCsv .all 0 25).2 = 6
  ∧ (batchViewList exStore "X" (some "t") (some [some 1]) exCsv .all 0 25).2 = 3
  ∧ (6 : Int) ≠ 3
  ∧ batchLocations "chr1\nchr1" = [("chr1", none), ("chr1", none)]
  ∧ (batchViewList exStore "chr1\nchr1" none none emptyCsv .all 0 25).2 = 2
  ∧ (batchViewList exStore "chr1" none none emptyCsv .all 0 25).2 = 2
  ∧ (2 : Int) ≠ 2 + 2 :=
  ⟨by decide, by decide, by decide, by decide, by decide, by decide, by decide,
    by decide, by decide⟩

/-- Claim C2 amended: the batch partition keeps name terms as a list with
multiplicity.  With no tissue filter, both the fetched rows and the total
count depend only on the set of terms (the `IN (...)` conditions are
membership tests), so a repeated name term still contributes its rows and
its count exactly once; with a tissue filter active the total count is the
sum of the per-term CSV count over every occurrence in the list, so a
repeated term contributes its count once per occurrence.  On the location
side, the total count is one membership count over the combined
chromosome-only list — duplicate-invariant, so a repeated chromosome-only
query contributes its count once — plus one count per entry of the region
list, so only repeated region queries contribute their own count per
occurrence. -/
theorem claim_C2_amended :
    (∀ (store : Store) (terms₁ terms₂ : List String)
      (allowFile : Option (List (Option Int))) (csv : CountMap) (t : TfbsType)
      (offset limit : Nat) (noPag : Bool),
      (∀ s, s ∈ terms₁ ↔ s ∈ terms₂) → terms₁ ≠ [] → terms₂ ≠ [] →
      batchSearchByTfName store terms₁ none allowFile csv t offset limit noPag =
        batchSearchByTfName store terms₂ none allowFile csv t offset limit noPag)
  ∧ (∀ (store : Store) (terms : List String) (cl : String)
      (allowFile : Option (List (Option Int))) (csv : CountMap) (t : TfbsType)
      (offset limit : Nat) (noPag : Bool),
      terms ≠ [] → loadCellLineIds allowFile (some cl) ≠ [] →
      (batchSearchByTfName store terms (some cl) allowFile csv t offset limit
        noPag).2 = (terms.map (fun s => getTfCountFromCsv csv cl s t)).sum)
  ∧ (∀ (positions : List PosRow) (locations : List (String × Option (Int × Int)))
      (cellLine : Option String) (allowFile : Option (List (Option Int)))
      (offset limit : Nat) (noPag : Bool),
      (batchSearchByLocation positions locations cellLine allowFile offset limit
        noPag).2 =
        (if (chrOnlyOf locations).isEmpty then 0
         else ((positions.filter (fun r =>
           decide (r.seqnames ∈ chrOnlyOf locations) &&
             idAllowed (resolveAllowed cellLine allowFile) r)).length : Int)) +
        ((regionsOf locations).map (fun q =>
          ((positions.filter (locWhere q.1 (some (q.2.1, q.2.2))
            (resolveAllowed cellLine allowFile))).length : Int))).sum)
  ∧ (∀ (positions : List PosRow) (chrs₁ chrs₂ : List String)
      (allowed : Option (List Int)),
      (∀ c, c ∈ chrs₁ ↔ c ∈ chrs₂) →
      (positions.filter (fun r => decide (r.seqnames ∈ chrs₁) &&
        idAllowed allowed r)).length =
        (positions.filter (fun r => decide (r.seqnames ∈ chrs₂) &&
          idAllowed allowed r)).length) := by
  refine ⟨?_, ?_, ?_, ?_⟩
  · intro store terms₁ terms₂ allowFile csv t offset limit noPag h hne1 hne2
    have h1 : ¬(terms₁.isEmpty = true) := fun hh => hne1 ((isEmpty_eq_nil _).mp hh)
    have h2 : ¬(terms₂.isEmpty = true) := fun hh => hne2 ((isEmpty_eq_nil _).mp hh)
    simp only [batchSearchByTfName, if_neg h1, if_neg h2]
    rw [nameFetchRows_congr store t terms₁ terms₂ none h,
      batchNameCountFromStore_congr store terms₁ terms₂ t h]
  · intro store terms cl allowFile csv t offset limit noPag hne hallow
    have h1 : ¬(terms.isEmpty = true) := fun hh => hne ((isEmpty_eq_nil _).mp hh)
    have h2 : ¬((loadCellLineIds allowFile (some cl)).isEmpty = true) :=
      fun hh => hallow ((isEmpty_eq_nil _).mp hh)
    simp only [batchSearchByTfName, if_neg h1, if_neg h2]
  · intro positions locations cellLine allowFile offset limit noPag
    exact batchLoc_count_factor positions locations cellLine allowFile offset limit
      noPag
  · intro positions chrs₁ chrs₂ allowed h
    have hf : positions.filter (fun r => decide (r.seqnames ∈ chrs₁) &&
        idAllowed allowed r) =
        positions.filter (fun r => decide (r.seqnames ∈ chrs₂) && idAllowed allowed r) := by
      apply List.filter_congr
      intro r _
      have : decide (r.seqnames ∈ chrs₁) = decide (r.seqnames ∈ chrs₂) := by
        simp only [decide_eq_decide]
        exact h r.seqnames
      rw [this]
    rw [hf]

/-- Concrete instantiation of `claim_C2_amended`: over the example store,
terms `["X", "X"]` and `["X"]` give the same no-tissue result, the
tissue-filtered count for `["X", "X"]` is the per-occurrence sum, and the
chromosome-only membership count is the same for the duplicated and the
deduplicated chromosome list. -/
theorem claim_C2_witness :
    batchSearchByTfName exStore ["X", "X"] none none exCsv .all 0 25 false =
      batchSearchByTfName exStore ["X"] none none exCsv .all 0 25 false
  ∧ (batchSearchByTfName exStore ["X", "X"] (some "t") (some [some 1]) exCsv .all 0 25
      false).2 =
      ((["X", "X"] : List String).map (fun s => getTfCountFromCsv exCsv "t" s .all)).sum
  ∧ (exStore.positions.filter (fun r => decide (r.seqnames ∈ ["chr1", "chr1"]) &&
      idAllowed none r)).length =
      (exStore.positions.filter (fun r => decide (r.seqnames ∈ ["chr1"]) &&
        idAllowed none r)).length := by
  refine ⟨?_, ?_, ?_⟩
  · exact claim_C2_amended.1 exStore ["X", "X"] ["X"] none exCsv .all 0 25 false
      (by intro s; simp [List.mem_cons]) (by decide) (by decide)
  · exact claim_C2_amended.2.1 exStore ["X", "X"] "t" (some [some 1]) exCsv .all 0 25
      false (by decide) (by decide)
  · exact claim_C2_amended.2.2.2 exStore.positions ["chr1", "chr1"] ["chr1"] none
      (by intro c; simp [List.mem_cons])

/-! ## Claim C4 -/

/-- Claim C4 confirmed: when a cell line is requested and its allow-list
resolves to the empty set — in particular when the backing membership file is
missing — every search and batch-search function returns `([], 0)` for every
possible store content (the result does not depend on the store, which is the
extensional form of issuing no store query). -/
theorem claim_C4 (cl : String) (allowFile : Option (List (Option Int)))
    (hempty : loadCellLineIds allowFile (some cl) = []) :
    (∀ positions chrom region offset limit noPag,
      searchByLocation positions chrom region (some cl) allowFile offset limit noPag =
        ([], 0))
  ∧ (∀ store term csv t offset limit noPag,
      searchByTfName store term (some cl) allowFile csv t offset limit noPag = ([], 0))
  ∧ (∀ store terms csv t offset limit noPag,
      batchSearchByTfName store terms (some cl) allowFile csv t offset limit noPag =
        ([], 0))
  ∧ (∀ positions locations offset limit noPag,
      batchSearchByLocation positions locations (some cl) allowFile offset limit noPag =
        ([], 0))
  ∧ (∀ store content csv t offset limit,
      batchViewList store content (some cl) allowFile csv t offset limit = ([], 0))
  ∧ loadCellLineIds none (some cl) = [] := by
  have hbn : ∀ store terms csv t offset limit noPag,
      batchSearchByTfName store terms (some cl) allowFile csv t offset limit noPag =
        ([], 0) := by
    intro store terms csv t offset limit noPag
    by_cases ht : terms.isEmpty
    · simp [batchSearchByTfName, ht]
    · simp [batchSearchByTfName, ht, hempty]
  have hbl : ∀ positions locations offset limit noPag,
      batchSearchByLocation positions locations (some cl) allowFile offset limit noPag =
        ([], 0) := by
    intro positions locations offset limit noPag
    by_cases hl : locations.isEmpty
    · simp [batchSearchByLocation, hl]
    · simp [batchSearchByLocation, hl, hempty]
  refine ⟨?_, ?_, hbn, hbl, ?_, rfl⟩
  · intro positions chrom region offset limit noPag
    simp [searchByLocation, hempty]
  · intro store term csv t offset limit noPag
    simp [searchByTfName, hempty]
  · intro store content csv t offset limit
    have h1 : (if (batchNameTerms content).isEmpty then ([], (0 : Int))
        else batchSearchByTfName store (batchNameTerms content) (some cl) allowFile csv t
          offset limit false) = ([], 0) := by
      split
      · rfl
      · exact hbn store (batchNameTerms content) csv t offset limit false
    have h2 : (if (batchLocations content).isEmpty then ([], (0 : Int))
        else batchSearchByLocation store.positions (batchLocations content) (some cl)
          allowFile offset limit false) = ([], 0) := by
      split
      · rfl
      · exact hbl store.positions (batchLocations content) offset limit false
    calc batchViewList store content (some cl) allowFile csv t offset limit
        = ((if (batchNameTerms content).isEmpty then ([], (0 : Int))
            else batchSearchByTfName store (batchNameTerms content) (some cl) allowFile
              csv t offset limit false).1 ++
           (if (batchLocations content).isEmpty then ([], (0 : Int))
            else batchSearchByLocation store.positions (batchLocations content) (some cl)
              allowFile offset limit false).1,
           (if (batchNameTerms content).isEmpty then ([], (0 : Int))
            else batchSearchByTfName store (batchNameTerms content) (some cl) allowFile
              csv t offset limit false).2 +
           (if (batchLocations content).isEmpty then ([], (0 : Int))
            else batchSearchByLocation store.positions (batchLocations content) (some cl)
              allowFile offset limit false).2) := rfl
      _ = ([], 0) := by rw [h1, h2]; simp

/-- Concrete instantiation of `claim_C4` with a missing membership file. -/
theorem claim_C4_witness :
    searchByLocation [rowA, rowB] "chr1" none (some "HepG2") none 0 25 false = ([], 0)
  ∧ batchViewList exStore "X\nchr1" (some "HepG2") none emptyCsv .all 0 25 = ([], 0) :=
  ⟨(claim_C4 "HepG2" none rfl).1 [rowA, rowB] "chr1" none 0 25 false,
   (claim_C4 "HepG2" none rfl).2.2.2.2.1 exStore "X\nchr1" emptyCsv .all 0 25⟩

/-! ## Claim C5 -/

/-- Claim C5 confirmed: a record matches a region query exactly when its
chromosome equals the query chromosome, its start is at least the region
start, and its end is at most the region end (full containment); and for the
inverted region start=20000, end=10000, over any store whose records all
satisfy `start < end`, the search returns `([], 0)` (no rows, zero count,
no error — the embedding is a total function). -/
theorem claim_C5 :
    (∀ (chrom : String) (qs qe : Int) (r : PosRow),
      locWhere chrom (some (qs, qe)) none r = true ↔
        (r.seqnames = chrom ∧ qs ≤ r.start ∧ r.stop ≤ qe))
  ∧ (∀ (positions : List PosRow) (chrom : String) (cellLine : Option String)
      (allowFile : Option (List (Option Int))) (offset limit : Nat) (noPag : Bool),
      (∀ r ∈ positions, r.start < r.stop) →
      searchByLocation positions chrom (some (20000, 10000)) cellLine allowFile offset
        limit noPag = ([], 0)) := by
  constructor
  · intro chrom qs qe r
    simp [locWhere, idAllowed, Bool.and_eq_true, decide_eq_true_eq, and_assoc]
  · intro positions chrom cellLine allowFile offset limit noPag hlt
    have hfilter : ∀ allowed : Option (List Int),
        positions.filter (locWhere chrom (some (20000, 10000)) allowed) = [] := by
      intro allowed
      apply filter_false_eq_nil
      intro r hr
      cases hw : locWhere chrom (some (20000, 10000)) allowed r
      · rfl
      · exfalso
        simp only [locWhere, Bool.and_eq_true, decide_eq_true_eq] at hw
        have h1 : (20000 : Int) ≤ r.start := hw.1.2.1
        have h2 : r.stop ≤ (10000 : Int) := hw.1.2.2
        have h3 := hlt r hr
        omega
    have hcore : ∀ allowed : Option (List Int),
        searchByLocationCore positions chrom (some (20000, 10000)) allowed offset limit
          noPag = ([], 0) := by
      intro allowed
      unfold searchByLocationCore
      rw [hfilter allowed]
      simp [sortRows, window, dedupBy]
    cases cellLine with
    | none => exact hcore none
    | some cl =>
      by_cases h : (loadCellLineIds allowFile (some cl)).isEmpty
      · simp [searchByLocation, h]
      · simp only [searchByLocation, h, Bool.false_eq_true, if_false]
        exact hcore (some (loadCellLineIds allowFile (some cl)))

/-- Concrete instantiation of `claim_C5`: the example store satisfies
`start < end` everywhere and the inverted region returns `([], 0)`. -/
theorem claim_C5_witness :
    searchByLocation [rowA, rowB] "chr1" (some (20000, 10000)) none none 0 25 false =
      ([], 0) :=
  claim_C5.2 [rowA, rowB] "chr1" none none 0 25 false (by decide)

/-! ## Claim C6 -/

theorem splitComma_ne_nil : ∀ cs : List Char, splitComma cs ≠ [] := by
  intro cs
  cases cs with
  | nil => simp [splitComma]
  | cons c rest =>
    by_cases hc : c = ','
    · simp [splitComma, hc]
    · simp only [splitComma, if_neg hc]
      cases hsr : splitComma rest with
      | nil => simp
      | cons p ps => simp

theorem joinComma_splitComma : ∀ cs : List Char, joinComma (splitComma cs) = cs := by
  intro cs
  induction cs with
  | nil => rfl
  | cons c rest ih =>
    by_cases hc : c = ','
    · subst hc
      simp only [splitComma, if_pos rfl]
      cases hsr : splitComma rest with
      | nil => exact absurd hsr (splitComma_ne_nil rest)
      | cons p ps =>
        rw [hsr] at ih
        show joinComma ([] :: p :: ps) = ',' :: rest
        calc joinComma ([] :: p :: ps) = ',' :: joinComma (p :: ps) := rfl
          _ = ',' :: rest := by rw [ih]
    · simp only [splitComma, if_neg hc]
      cases hsr : splitComma rest with
      | nil => exact absurd hsr (splitComma_ne_nil rest)
      | cons p ps =>
        rw [hsr] at ih
        cases ps with
        | nil =>
          show joinComma [c :: p] = c :: rest
          have hp : p = rest := ih
          rw [show joinComma [c :: p] = c :: p from rfl, hp]
        | cons q qs =>
          show joinComma ((c :: p) :: q :: qs) = c :: rest
          calc joinComma ((c :: p) :: q :: qs)
              = (c :: p) ++ ',' :: joinComma (q :: qs) := rfl
            _ = c :: (p ++ ',' :: joinComma (q :: qs)) := by simp
            _ = c :: rest := by rw [show p ++ ',' :: joinComma (q :: qs) = rest from ih]

theorem splitComma_no_comma (a : List Char) (h : ',' ∉ a) : splitComma a = [a] := by
  induction a with
  | nil => rfl
  | cons c rest ih =>
    have hc : c ≠ ',' := fun hh => h (hh ▸ List.mem_cons_self _ _)
    have hrest : ',' ∉ rest := fun hh => h (List.mem_cons_of_mem _ hh)
    simp only [splitComma, if_neg hc, ih hrest]

theorem splitComma_append (a t : List Char) (h : ',' ∉ a) :
    splitComma (a ++ ',' :: t) = a :: splitComma t := by
  induction a with
  | nil => simp [splitComma]
  | cons c rest ih =>
    have hc : c ≠ ',' := fun hh => h (hh ▸ List.mem_cons_self _ _)
    have hrest : ',' ∉ rest := fun hh => h (List.mem_cons_of_mem _ hh)
    show splitComma (c :: (rest ++ ',' :: t)) = (c :: rest) :: splitComma t
    simp only [splitComma, if_neg hc]
    rw [ih hrest]

theorem digitsPlus_iff (cs : List Char) :
    digitsPlus cs = true ↔ (cs ≠ [] ∧ ∀ c ∈ cs, isDigitCh c = true) := by
  unfold digitsPlus
  rw [Bool.and_eq_true, List.all_eq_true]
  constructor
  · rintro ⟨h1, h2⟩
    exact ⟨fun hn => by subst hn; simp at h1, h2⟩
  · rintro ⟨h1, h2⟩
    refine ⟨?_, h2⟩
    cases cs with
    | nil => exact absurd rfl h1
    | cons => simp [List.isEmpty]

theorem digits_no_comma (d : List Char) (h : ∀ c ∈ d, isDigitCh c = true) :
    ',' ∉ d := by
  intro hmem
  exact absurd (h ',' hmem) (by decide)

theorem digits_no_nl (d : List Char) (h : ∀ c ∈ d, isDigitCh c = true) :
    '\n' ∉ d := by
  intro hmem
  exact absurd (h '\n' hmem) (by decide)

theorem dropWhile_false_eq_self {α : Type} (p : α → Bool) :
    ∀ l : List α, (∀ a ∈ l, p a = false) → l.dropWhile p = l := by
  intro l h
  cases l with
  | nil => rfl
  | cons a l =>
    rw [List.dropWhile_cons, h a (List.mem_cons_self _ _)]
    simp

theorem isPyWs_false_of_digit (c : Char) (h : isDigitCh c = true) :
    isPyWs c = false := by
  cases hw : isPyWs c with
  | false => rfl
  | true =>
    exfalso
    simp only [isPyWs, Bool.or_eq_true, decide_eq_true_eq] at hw
    rcases hw with ((((h1 | h1) | h1) | h1) | h1) | h1 <;> subst h1 <;>
      exact absurd h (by decide)

theorem pyStrip_eq_self_of_digits (cs : List Char)
    (h : ∀ c ∈ cs, isDigitCh c = true) : pyStrip cs = cs := by
  have hws : ∀ c ∈ cs, isPyWs c = false := fun c hc => isPyWs_false_of_digit c (h c hc)
  unfold pyStrip
  rw [dropWhile_false_eq_self _ cs hws,
    dropWhile_false_eq_self _ cs.reverse (fun c hc => hws c (List.mem_reverse.mp hc)),
    List.reverse_reverse]

theorem pyInt_of_digitsPlus (cs : List Char) (h : digitsPlus cs = true) :
    pyInt cs = some (digitsVal cs) := by
  obtain ⟨hne, hdig⟩ := (digitsPlus_iff cs).mp h
  unfold pyInt
  rw [pyStrip_eq_self_of_digits cs hdig]
  unfold digitsPlus at h
  rw [if_pos h]

theorem pyStrip_digits_nl (d : List Char) (hne : d ≠ [])
    (h : ∀ c ∈ d, isDigitCh c = true) : pyStrip (d ++ ['\n']) = d := by
  have hws : ∀ c ∈ d, isPyWs c = false := fun c hc => isPyWs_false_of_digit c (h c hc)
  obtain ⟨c0, d', rfl⟩ : ∃ c0 d', d = c0 :: d' := by
    cases d with
    | nil => exact absurd rfl hne
    | cons a l => exact ⟨a, l, rfl⟩
  unfold pyStrip
  rw [List.cons_append, List.dropWhile_cons, hws c0 (List.mem_cons_self _ _)]
  simp only [Bool.false_eq_true, if_false]
  rw [show ((c0 :: (d' ++ ['\n'])).reverse) = '\n' :: (c0 :: d').reverse by simp,
    List.dropWhile_cons]
  rw [show isPyWs '\n' = true by decide, if_pos rfl,
    dropWhile_false_eq_self _ _ (fun c hc => hws c (List.mem_reverse.mp hc)),
    List.reverse_reverse]

theorem pyInt_digits_nl (d : List Char) (hne : d ≠ [])
    (h : ∀ c ∈ d, isDigitCh c = true) :
    pyInt (d ++ ['\n']) = some (digitsVal d) := by
  unfold pyInt
  rw [pyStrip_digits_nl d hne h]
  have hd : digitsPlus d = true := (digitsPlus_iff d).mpr ⟨hne, h⟩
  unfold digitsPlus at hd
  rw [if_pos hd]

theorem isChrOnlyCore_iff (cs : List Char) :
    isChrOnlyCore cs = true ↔ ChrOnlyBody cs := by
  constructor
  · intro h
    rcases cs with _ | ⟨c1, _ | ⟨c2, _ | ⟨c3, rest⟩⟩⟩
    · simp [isChrOnlyCore] at h
    · simp [isChrOnlyCore] at h
    · simp [isChrOnlyCore] at h
    · simp only [isChrOnlyCore, Bool.and_eq_true, decide_eq_true_eq] at h
      obtain ⟨⟨⟨h1, h2⟩, h3⟩, h4⟩ := h
      subst h1
      subst h2
      subst h3
      obtain ⟨hne, hdig⟩ := (digitsPlus_iff rest).mp h4
      exact ⟨rest, hne, hdig, rfl⟩
  · rintro ⟨ds, hne, hdig, rfl⟩
    have hd : digitsPlus ds = true := (digitsPlus_iff ds).mpr ⟨hne, hdig⟩
    simp [isChrOnlyCore, hd]

theorem isFullLocCore_iff (cs : List Char) :
    isFullLocCore cs = true ↔ FullLocBody cs := by
  constructor
  · intro h
    rcases cs with _ | ⟨c1, _ | ⟨c2, _ | ⟨c3, rest⟩⟩⟩
    · simp [isFullLocCore] at h
    · simp [isFullLocCore] at h
    · simp [isFullLocCore] at h
    · simp only [isFullLocCore, Bool.and_eq_true, decide_eq_true_eq] at h
      obtain ⟨⟨⟨h1, h2⟩, h3⟩, h4⟩ := h
      subst h1
      subst h2
      subst h3
      rcases hsr : splitComma rest with _ | ⟨d1, _ | ⟨d2, _ | ⟨d3, _ | ⟨d4, tl⟩⟩⟩⟩ <;>
        rw [hsr] at h4
      · exact absurd h4 (by simp)
      · exact absurd h4 (by simp)
      · exact absurd h4 (by simp)
      · simp only [Bool.and_eq_true] at h4
        obtain ⟨⟨hd1, hd2⟩, hd3⟩ := h4
        obtain ⟨hne1, hdig1⟩ := (digitsPlus_iff d1).mp hd1
        obtain ⟨hne2, hdig2⟩ := (digitsPlus_iff d2).mp hd2
        obtain ⟨hne3, hdig3⟩ := (digitsPlus_iff d3).mp hd3
        refine ⟨d1, d2, d3, hne1, hne2, hne3, hdig1, hdig2, hdig3, ?_⟩
        have hrest : rest = d1 ++ ',' :: (d2 ++ ',' :: d3) := by
          have hj := joinComma_splitComma rest
          rw [hsr] at hj
          calc rest = joinComma [d1, d2, d3] := hj.symm
            _ = d1 ++ ',' :: joinComma [d2, d3] := rfl
            _ = d1 ++ ',' :: (d2 ++ ',' :: joinComma [d3]) := rfl
            _ = d1 ++ ',' :: (d2 ++ ',' :: d3) := rfl
        rw [hrest]
      · exact absurd h4 (by simp)
  · rintro ⟨d1, d2, d3, hne1, hne2, hne3, hdig1, hdig2, hdig3, rfl⟩
    have h1 : digitsPlus d1 = true := (digitsPlus_iff d1).mpr ⟨hne1, hdig1⟩
    have h2 : digitsPlus d2 = true := (digitsPlus_iff d2).mpr ⟨hne2, hdig2⟩
    have h3 : digitsPlus d3 = true := (digitsPlus_iff d3).mpr ⟨hne3, hdig3⟩
    have hsplit : splitComma (d1 ++ ',' :: (d2 ++ ',' :: d3)) = [d1, d2, d3] := by
      rw [splitComma_append d1 _ (digits_no_comma d1 hdig1),
        splitComma_append d2 _ (digits_no_comma d2 hdig2),
        splitComma_no_comma d3 (digits_no_comma d3 hdig3)]
    simp [isFullLocCore, hsplit, h1, h2, h3]

theorem mem_of_getLast_some {α : Type} (l : List α) (c : α)
    (h : l.getLast? = some c) : c ∈ l := by
  induction l with
  | nil => exact absurd h (by simp)
  | cons a l ih =>
    cases l with
    | nil =>
      have : a = c := by simpa using h
      subst this
      exact List.mem_cons_self _ _
    | cons b l2 =>
      rw [List.getLast?_cons_cons] at h
      exact List.mem_cons_of_mem _ (ih h)

theorem eq_dropLast_concat {α : Type} (l : List α) (c : α)
    (h : l.getLast? = some c) : l = l.dropLast ++ [c] := by
  have hne : l ≠ [] := by
    rintro rfl
    simp at h
  have h2 := List.dropLast_append_getLast hne
  have h3 : l.getLast hne = c := by
    have h4 := List.getLast?_eq_getLast l hne
    rw [h4] at h
    exact Option.some.inj h
  calc l = l.dropLast ++ [l.getLast hne] := h2.symm
    _ = l.dropLast ++ [c] := by rw [h3]

theorem dropTrailNL_concat (l : List Char) : dropTrailNL (l ++ ['\n']) = l := by
  unfold dropTrailNL
  rw [List.getLast?_concat, if_pos rfl, List.dropLast_concat]

theorem dropTrailNL_of_no_nl (cs : List Char) (h : '\n' ∉ cs) :
    dropTrailNL cs = cs := by
  unfold dropTrailNL
  rw [if_neg (fun hsome => h (mem_of_getLast_some cs '\n' hsome))]

theorem dropTrailNL_cases (cs : List Char) :
    cs = dropTrailNL cs ∨ cs = dropTrailNL cs ++ ['\n'] := by
  unfold dropTrailNL
  by_cases h : cs.getLast? = some '\n'
  · rw [if_pos h]
    exact Or.inr (eq_dropLast_concat cs '\n' h)
  · rw [if_neg h]
    exact Or.inl rfl

theorem chrOnlyBody_no_nl (cs : List Char) (h : ChrOnlyBody cs) : '\n' ∉ cs := by
  obtain ⟨ds, _, hdig, rfl⟩ := h
  intro hmem
  rcases List.mem_cons.mp hmem with h1 | hmem
  · exact absurd h1 (by decide)
  rcases List.mem_cons.mp hmem with h1 | hmem
  · exact absurd h1 (by decide)
  rcases List.mem_cons.mp hmem with h1 | hmem
  · exact absurd h1 (by decide)
  exact digits_no_nl ds hdig hmem

theorem fullLocBody_no_nl (cs : List Char) (h : FullLocBody cs) : '\n' ∉ cs := by
  obtain ⟨d1, d2, d3, _, _, _, hd1, hd2, hd3, rfl⟩ := h
  intro hmem
  rcases List.mem_cons.mp hmem with h1 | hmem
  · exact absurd h1 (by decide)
  rcases List.mem_cons.mp hmem with h1 | hmem
  · exact absurd h1 (by decide)
  rcases List.mem_cons.mp hmem with h1 | hmem
  · exact absurd h1 (by decide)
  rcases List.mem_append.mp hmem with hm | hm
  · exact digits_no_nl d1 hd1 hm
  rcases List.mem_cons.mp hm with h1 | hm
  · exact absurd h1 (by decide)
  rcases List.mem_append.mp hm with hm2 | hm2
  · exact digits_no_nl d2 hd2 hm2
  rcases List.mem_cons.mp hm2 with h1 | hm2
  · exact absurd h1 (by decide)
  exact digits_no_nl d3 hd3 hm2

theorem chrOnlyBody_no_comma (cs : List Char) (h : ChrOnlyBody cs) : ',' ∉ cs := by
  obtain ⟨ds, _, hdig, rfl⟩ := h
  intro hmem
  rcases List.mem_cons.mp hmem with h1 | hmem
  · exact absurd h1 (by decide)
  rcases List.mem_cons.mp hmem with h1 | hmem
  · exact absurd h1 (by decide)
  rcases List.mem_cons.mp hmem with h1 | hmem
  · exact absurd h1 (by decide)
  exact digits_no_comma ds hdig hmem

theorem isChrOnlyL_iff (cs : List Char) :
    isChrOnlyL cs = true ↔ ChrOnlyPatternPy cs := by
  unfold isChrOnlyL
  rw [isChrOnlyCore_iff]
  constructor
  · intro hb
    rcases dropTrailNL_cases cs with hcs | hcs
    · exact ⟨dropTrailNL cs, hb, Or.inl hcs⟩
    · exact ⟨dropTrailNL cs, hb, Or.inr hcs⟩
  · rintro ⟨body, hb, hcs | hcs⟩
    · rw [hcs, dropTrailNL_of_no_nl body (chrOnlyBody_no_nl body hb)]
      exact hb
    · rw [hcs, dropTrailNL_concat]
      exact hb

theorem isFullLocL_iff (cs : List Char) :
    isFullLocL cs = true ↔ FullLocPatternPy cs := by
  unfold isFullLocL
  rw [isFullLocCore_iff]
  constructor
  · intro hb
    rcases dropTrailNL_cases cs with hcs | hcs
    · exact ⟨dropTrailNL cs, hb, Or.inl hcs⟩
    · exact ⟨dropTrailNL cs, hb, Or.inr hcs⟩
  · rintro ⟨body, hb, hcs | hcs⟩
    · rw [hcs, dropTrailNL_of_no_nl body (fullLocBody_no_nl body hb)]
      exact hb
    · rw [hcs, dropTrailNL_concat]
      exact hb

/-- Claim C6 is false on the code: Python `re.match` with a `$`-anchored
pattern also matches one trailing newline, and `\d` matches any Unicode
decimal digit, so `is_genomic_location` accepts the strings chr1 followed by
a newline and chr followed by an Arabic-Indic digit — neither of which
matches chr<digits> or chr<digits>,<digits>,<digits> as the claim states
them — and `classify` turns the first into a LocationQuery instead of the
NameQuery the claim requires. -/
theorem claim_C6_counterexample :
    ¬ (ChrOnlyPattern "chr1\n".toList ∨ FullLocPattern "chr1\n".toList)
  ∧ isGenomicLocation "chr1\n" = true
  ∧ classify "chr1\n" = some (Query.location "chr1\n" none)
  ∧ classify "chr1\n" ≠ some (Query.name "chr1\n")
  ∧ ¬ (ChrOnlyPattern "chr٣".toList ∨ FullLocPattern "chr٣".toList)
  ∧ isGenomicLocation "chr٣" = true := by
  refine ⟨?_, by decide, by decide, by decide, ?_, by decide⟩
  · rintro (⟨ds, hne, hdig, heq⟩ | ⟨d1, d2, d3, h1, h2, h3, hd1, hd2, hd3, heq⟩)
    · have heq2 : ('c' :: 'h' :: 'r' :: '1' :: '\n' :: [] : List Char) =
          'c' :: 'h' :: 'r' :: ds := heq
      have hds : ds = '1' :: '\n' :: [] := by
        injection heq2 with e1 h2
        injection h2 with e2 h3
        injection h3 with e3 h4
        exact h4.symm
      have h10 := hdig '\n' (by rw [hds]; simp)
      exact absurd h10.1 (by decide)
    · have hmem : ',' ∈ "chr1\n".toList := by
        rw [heq]
        simp
      exact absurd hmem (by decide)
  · rintro (⟨ds, hne, hdig, heq⟩ | ⟨d1, d2, d3, h1, h2, h3, hd1, hd2, hd3, heq⟩)
    · have heq2 : ('c' :: 'h' :: 'r' :: '٣' :: [] : List Char) =
          'c' :: 'h' :: 'r' :: ds := heq
      have hds : ds = '٣' :: [] := by
        injection heq2 with e1 h2
        injection h2 with e2 h3
        injection h3 with e3 h4
        exact h4.symm
      have h10 := hdig '٣' (by rw [hds]; simp)
      exact absurd h10.2 (by decide)
    · have hmem : ',' ∈ "chr٣".toList := by
        rw [heq]
        simp
      exact absurd hmem (by decide)

/-- Claim C6 amended: `classify` yields a `LocationQuery` exactly on the
strings accepted by the source regexes under Python semantics — the
chromosome-only or full-region shape with Unicode decimal digits,
optionally followed by one trailing newline (stated declaratively as
`ChrOnlyPatternPy`/`FullLocPatternPy`); every other string becomes a
`NameQuery` on the whole string; and classification never raises (the
embedded parse, whose `none` models a raised exception, always succeeds —
`int` strips the trailing newline). -/
theorem claim_C6 (s : String) :
    ((ChrOnlyPatternPy s.toList ∨ FullLocPatternPy s.toList) ↔
      isGenomicLocation s = true)
  ∧ (isGenomicLocation s = true → ∃ c r, classify s = some (Query.location c r))
  ∧ (isGenomicLocation s = false → classify s = some (Query.name s))
  ∧ (classify s).isSome = true := by
  have hiff : (ChrOnlyPatternPy s.toList ∨ FullLocPatternPy s.toList) ↔
      isGenomicLocation s = true := by
    unfold isGenomicLocation isGenomicLocationL
    rw [Bool.or_eq_true, isFullLocL_iff, isChrOnlyL_iff]
    tauto
  have hloc : isGenomicLocation s = true →
      ∃ c r, classify s = some (Query.location c r) := by
    intro h
    rcases hiff.mpr h with hp | hp
    · obtain ⟨body, hb, hcase⟩ := hp
      have hnc : ',' ∉ s.toList := by
        rcases hcase with hcs | hcs
        · rw [hcs]
          exact chrOnlyBody_no_comma body hb
        · rw [hcs]
          intro hm
          rcases List.mem_append.mp hm with hm | hm
          · exact chrOnlyBody_no_comma body hb hm
          · rcases List.mem_cons.mp hm with h1 | hm
            · exact absurd h1 (by decide)
            · simp at hm
      refine ⟨String.mk s.toList, none, ?_⟩
      unfold classify
      rw [if_pos h]
      unfold parseGenomicLocationL
      rw [if_neg hnc]
      rfl
    · obtain ⟨body, hb, hcase⟩ := hp
      obtain ⟨d1, d2, d3, hne1, hne2, hne3, hdig1, hdig2, hdig3, rfl⟩ := hb
      have hd2 : digitsPlus d2 = true := (digitsPlus_iff d2).mpr ⟨hne2, hdig2⟩
      have hpre : ',' ∉ ('c' :: 'h' :: 'r' :: d1) := by
        intro hm
        rcases List.mem_cons.mp hm with h1 | hm
        · exact absurd h1 (by decide)
        rcases List.mem_cons.mp hm with h1 | hm
        · exact absurd h1 (by decide)
        rcases List.mem_cons.mp hm with h1 | hm
        · exact absurd h1 (by decide)
        exact digits_no_comma d1 hdig1 hm
      rcases hcase with hcs | hcs
      · have hd3 : digitsPlus d3 = true := (digitsPlus_iff d3).mpr ⟨hne3, hdig3⟩
        have hmem : ',' ∈ 'c' :: 'h' :: 'r' :: (d1 ++ ',' :: (d2 ++ ',' :: d3)) := by
          simp
        have hsplit : splitComma ('c' :: 'h' :: 'r' :: (d1 ++ ',' :: (d2 ++ ',' :: d3))) =
            ('c' :: 'h' :: 'r' :: d1) :: [d2, d3] := by
          show splitComma (('c' :: 'h' :: 'r' :: d1) ++ ',' :: (d2 ++ ',' :: d3)) = _
          rw [splitComma_append _ _ hpre,
            splitComma_append d2 _ (digits_no_comma d2 hdig2),
            splitComma_no_comma d3 (digits_no_comma d3 hdig3)]
        refine ⟨String.mk ('c' :: 'h' :: 'r' :: d1),
          some (digitsVal d2, digitsVal d3), ?_⟩
        unfold classify
        rw [if_pos h]
        unfold parseGenomicLocationL
        rw [hcs, if_pos hmem, hsplit]
        simp only [pyInt_of_digitsPlus d2 hd2, pyInt_of_digitsPlus d3 hd3,
          Option.some_bind, Option.map_some']
      · have hnc3 : ',' ∉ d3 ++ ['\n'] := by
          intro hm
          rcases List.mem_append.mp hm with hm | hm
          · exact digits_no_comma d3 hdig3 hm
          · simp at hm
        have hform : ('c' :: 'h' :: 'r' :: (d1 ++ ',' :: (d2 ++ ',' :: d3))) ++ ['\n'] =
            ('c' :: 'h' :: 'r' :: d1) ++ ',' :: (d2 ++ ',' :: (d3 ++ ['\n'])) := by
          simp
        have hmem : ',' ∈ ('c' :: 'h' :: 'r' :: (d1 ++ ',' :: (d2 ++ ',' :: d3))) ++ ['\n'] := by
          simp
        have hsplit : splitComma
            (('c' :: 'h' :: 'r' :: (d1 ++ ',' :: (d2 ++ ',' :: d3))) ++ ['\n']) =
            ('c' :: 'h' :: 'r' :: d1) :: [d2, d3 ++ ['\n']] := by
          rw [hform, splitComma_append _ _ hpre,
            splitComma_append d2 _ (digits_no_comma d2 hdig2),
            splitComma_no_comma (d3 ++ ['\n']) hnc3]
        refine ⟨String.mk ('c' :: 'h' :: 'r' :: d1),
          some (digitsVal d2, digitsVal d3), ?_⟩
        unfold classify
        rw [if_pos h]
        unfold parseGenomicLocationL
        rw [hcs, if_pos hmem, hsplit]
        simp only [pyInt_of_digitsPlus d2 hd2, pyInt_digits_nl d3 hne3 hdig3,
          Option.some_bind, Option.map_some']
  have hname : isGenomicLocation s = false → classify s = some (Query.name s) := by
    intro h
    simp [classify, h]
  refine ⟨hiff, hloc, hname, ?_⟩
  cases hg : isGenomicLocation s
  · rw [hname hg]
    rfl
  · obtain ⟨c, r, hc⟩ := hloc hg
    rw [hc]
    rfl

/-- Concrete instantiation of `claim_C6`: the malformed location-like string
chrX,5, classifies as a name query on the whole string, and a well-formed
region string classifies as a location query. -/
theorem claim_C6_witness :
    isGenomicLocation "chrX,5," = false
  ∧ classify "chrX,5," = some (Query.name "chrX,5,")
  ∧ (∃ c r, classify "chr1,10000,20000" = some (Query.location c r)) :=
  ⟨by decide, (claim_C6 "chrX,5,").2.2.1 (by decide),
    (claim_C6 "chr1,10000,20000").2.1 (by decide)⟩

/-! ## Claim C7 -/

theorem parseBatchLoop_eq_filterMap :
    ∀ ls : List (List Char), parseBatchLoop ls = ls.filterMap cleanBatchLine := by
  intro ls
  induction ls with
  | nil => rfl
  | cons line rest ih =>
    cases h : cleanBatchLine line with
    | none => simp [parseBatchLoop, h, ih, List.filterMap_cons]
    | some q => simp [parseBatchLoop, h, ih, List.filterMap_cons]

/-- Claim C7 confirmed: on the BOM/comment/blank/trailing-comma/CSV input the
batch parser yields exactly FOXP3, chr2,100,200, A; and for every input the
parser is a per-line `filterMap` over the split lines — each line contributes
at most one query, in line order, with no deduplication (witnessed also by
the duplicated-line input producing a duplicated output). -/
theorem claim_C7 :
    parseBatchFile "\uFEFFFOXP3\n#comment\n\nchr2,100,200,\nA,B,C\n" =
      ["FOXP3", "chr2,100,200", "A"]
  ∧ (∀ content : List Char,
      parseBatchFileL content =
        (splitNL (pyStrip (stripLeadBOM content))).filterMap cleanBatchLine)
  ∧ parseBatchFile "X\nX" = ["X", "X"] :=
  ⟨by decide, fun _ => parseBatchLoop_eq_filterMap _, by decide⟩

/-! ## Claim C8 -/

theorem updateKey_inv (m : CountMap) (k : String × String) (f : Counts → Counts)
    (hm : ∀ q c, m q = some c → c.all = c.chip + c.predicted)
    (hf : ∀ c, c.all = c.chip + c.predicted → (f c).all = (f c).chip + (f c).predicted) :
    ∀ q c, updateKey m k f q = some c → c.all = c.chip + c.predicted := by
  intro q c h
  unfold updateKey at h
  by_cases hq : q = k
  · rw [if_pos hq] at h
    have hc : f ((m k).getD zeroCounts) = c := Option.some.inj h
    rw [← hc]
    apply hf
    cases hb : m k with
    | none => simp [hb, zeroCounts]
    | some c0 =>
      have := hm k c0 hb
      simpa [hb] using this
  · rw [if_neg hq] at h
    exact hm q c h

theorem addCsvRowFirst_inv (m : CountMap) (ct tf : String) (n : Int)
    (hm : ∀ q c, m q = some c → c.all = c.chip + c.predicted) :
    ∀ q c, addCsvRowFirst m ct tf n q = some c → c.all = c.chip + c.predicted := by
  intro q c h
  unfold addCsvRowFirst at h
  by_cases hc : ct ≠ "" ∧ tf ≠ ""
  · rw [if_pos hc] at h
    refine updateKey_inv m (ct, tf) _ hm ?_ q c h
    intro e he
    simp only []
    omega
  · rw [if_neg hc] at h
    exact hm q c h

theorem addCsvRowSecond_inv (m : CountMap) (ct ptf : String) (n : Int)
    (hm : ∀ q c, m q = some c → c.all = c.chip + c.predicted) :
    ∀ q c, addCsvRowSecond m ct ptf n q = some c → c.all = c.chip + c.predicted := by
  intro q c h
  unfold addCsvRowSecond at h
  by_cases hc : ct ≠ "" ∧ ptf ≠ ""
  · rw [if_pos hc] at h
    refine updateKey_inv m (ct, ptf) _ hm ?_ q c h
    intro e he
    simp only []
    omega
  · rw [if_neg hc] at h
    exact hm q c h

theorem addCsvRow_inv (m : CountMap) (r : CountCsvRow)
    (hm : ∀ q c, m q = some c → c.all = c.chip + c.predicted) :
    ∀ q c, addCsvRow m r q = some c → c.all = c.chip + c.predicted := by
  intro q c h
  unfold addCsvRow at h
  cases hcnt : r.count_of_id with
  | none =>
    rw [hcnt] at h
    exact hm q c h
  | some n =>
    rw [hcnt] at h
    exact addCsvRowSecond_inv _ _ _ n
      (addCsvRowFirst_inv m _ _ n hm) q c h

theorem loadTfCountData_inv (rows : List CountCsvRow) :
    ∀ k c, loadTfCountData rows k = some c → c.all = c.chip + c.predicted := by
  unfold loadTfCountData
  have hgen : ∀ (m : CountMap),
      (∀ q c, m q = some c → c.all = c.chip + c.predicted) →
      ∀ k c, (rows.foldl addCsvRow m) k = some c → c.all = c.chip + c.predicted := by
    induction rows with
    | nil => intro m hm; exact hm
    | cons r rest ih =>
      intro m hm
      exact ih (addCsvRow m r) (addCsvRow_inv m r hm)
  exact hgen (fun _ => none) (fun q c h => by simp at h)

/-- Claim C8 confirmed: every mapping the count cache builds from the raw
source rows satisfies `total = confirmed + predicted` at every key; a row
naming the same term in both name columns increments both counters and adds
to the total twice; and the lookup returns the counter selected by the
evidence filter, defaulting to 0 on an absent key. -/
theorem claim_C8 :
    (∀ (rows : List CountCsvRow) (k : String × String) (c : Counts),
      loadTfCountData rows k = some c → c.all = c.chip + c.predicted)
  ∧ (∀ (m : CountMap) (cell tf : String) (t : TfbsType),
      m (cell, tf) = none → getTfCountFromCsv m cell tf t = 0)
  ∧ (∀ (m : CountMap) (cell tf : String) (c : Counts),
      m (cell, tf) = some c →
        getTfCountFromCsv m cell tf .all = c.all ∧
        getTfCountFromCsv m cell tf .chip = c.chip ∧
        getTfCountFromCsv m cell tf .predicted = c.predicted)
  ∧ (∀ (m : CountMap) (r : CountCsvRow) (n : Int),
      r.count_of_id = some n → stripS r.cell_tissue ≠ "" → stripS r.tfbs ≠ "" →
      stripS r.predicted_tfbs = stripS r.tfbs →
      addCsvRow m r (stripS r.cell_tissue, stripS r.tfbs) =
        some ⟨((m (stripS r.cell_tissue, stripS r.tfbs)).getD zeroCounts).all + n + n,
          ((m (stripS r.cell_tissue, stripS r.tfbs)).getD zeroCounts).chip + n,
          ((m (stripS r.cell_tissue, stripS r.tfbs)).getD zeroCounts).predicted + n⟩) := by
  refine ⟨fun rows k c h => loadTfCountData_inv rows k c h, ?_, ?_, ?_⟩
  · intro m cell tf t h
    unfold getTfCountFromCsv
    rw [h]
    cases t <;> rfl
  · intro m cell tf c h
    unfold getTfCountFromCsv
    rw [h]
    exact ⟨rfl, rfl, rfl⟩
  · intro m r n hcount hct htf hptf
    unfold addCsvRow
    rw [hcount]
    show addCsvRowSecond (addCsvRowFirst m (stripS r.cell_tissue) (stripS r.tfbs) n)
      (stripS r.cell_tissue) (stripS r.predicted_tfbs) n
      (stripS r.cell_tissue, stripS r.tfbs) = _
    rw [hptf]
    unfold addCsvRowSecond addCsvRowFirst
    rw [if_pos ⟨hct, htf⟩, if_pos ⟨hct, htf⟩]
    unfold updateKey
    rw [if_pos rfl, if_pos rfl]
    rfl

/-- Concrete instantiation of `claim_C8`: a single source row with the same
term in both name columns and count 2 yields the entry (4, 2, 2), whose total
is confirmed + predicted, and the All lookup returns 4. -/
theorem claim_C8_witness :
    loadTfCountData [⟨"t", "x", "x", some 2⟩] ("t", "x") = some ⟨4, 2, 2⟩
  ∧ (Counts.all ⟨4, 2, 2⟩ = Counts.chip ⟨4, 2, 2⟩ + Counts.predicted ⟨4, 2, 2⟩)
  ∧ getTfCountFromCsv (loadTfCountData [⟨"t", "x", "x", some 2⟩]) "t" "x" .all = 4 := by
  have h : loadTfCountData [⟨"t", "x", "x", some 2⟩] ("t", "x") = some ⟨4, 2, 2⟩ := by
    decide
  refine ⟨h, claim_C8.1 [⟨"t", "x", "x", some 2⟩] ("t", "x") ⟨4, 2, 2⟩ h, ?_⟩
  exact (claim_C8.2.2.1 (loadTfCountData [⟨"t", "x", "x", some 2⟩]) "t" "x" ⟨4, 2, 2⟩ h).1

/-! ## Claim C9 -/

theorem exceptMap_error {α β : Type} (f : α → β) (e : StoreErr) :
    (Except.error e : Except StoreErr α).map f = .error e := rfl

theorem exceptMap_ok {α β : Type} (f : α → β) (a : α) :
    (Except.ok a : Except StoreErr α).map f = .ok (f a) := rfl

theorem batchSearchByTfNameExc_ok (st : Store) (terms : List String)
    (cellLine : Option String) (allowFile : Option (List (Option Int)))
    (csv : CountMap) (t : TfbsType) (offset limit : Nat) (noPag : Bool) :
    batchSearchByTfNameExc (.ok st) terms cellLine allowFile csv t offset limit noPag =
      .ok (batchSearchByTfName st terms cellLine allowFile csv t offset limit noPag) := by
  unfold batchSearchByTfNameExc
  by_cases ht : terms.isEmpty
  · simp [ht, batchSearchByTfName]
  · rw [if_neg ht]
    cases cellLine with
    | none => rfl
    | some cl =>
      by_cases h : (loadCellLineIds allowFile (some cl)).isEmpty
      · simp [batchSearchByTfName, ht, h]
      · simp [h, exceptMap_ok]

theorem batchSearchByLocationExc_ok (ps : List PosRow)
    (locations : List (String × Option (Int × Int))) (cellLine : Option String)
    (allowFile : Option (List (Option Int))) (offset limit : Nat) (noPag : Bool) :
    batchSearchByLocationExc (.ok ps) locations cellLine allowFile offset limit noPag =
      .ok (batchSearchByLocation ps locations cellLine allowFile offset limit noPag) := by
  unfold batchSearchByLocationExc
  by_cases hl : locations.isEmpty
  · simp [hl, batchSearchByLocation]
  · rw [if_neg hl]
    cases cellLine with
    | none => rfl
    | some cl =>
      by_cases h : (loadCellLineIds allowFile (some cl)).isEmpty
      · simp [batchSearchByLocation, hl, h]
      · simp [h, exceptMap_ok]

/-- Claim C9 confirmed at full scope: every store-touching search —
`search_by_location`, `search_by_tf_name`, `batch_search_by_tf_name`,
`batch_search_by_location`, and the whole `BatchTFBSViewSet.list` search —
re-raises a store failure unchanged (in every configuration that reaches the
store: no tissue filter, or a tissue filter with a non-empty allow-list);
the view layer shared by both view sets turns the failure into a response
carrying the human-readable message in its `error` field, with the full
traceback only in debug mode; and every successful response — including a
legitimate zero-result page — has `error = none`, so a store failure is
never indistinguishable from a zero-result page.  The last conjunct ties the
fallible batch view to the total one on a healthy store. -/
theorem claim_C9 :
    (∀ (e : StoreErr) (chrom : String) (region : Option (Int × Int))
      (allowed : Option (List Int)) (offset limit : Nat) (noPag : Bool),
      searchByLocationExc (.error e) chrom region allowed offset limit noPag = .error e)
  ∧ (∀ (draw : Int) (e : StoreErr) (debug : Bool),
      tfbsViewSetList draw (.error e) debug =
        ⟨draw, 0, 0, [], some e.msg,
          some (if debug then e.trace else "See server logs for details")⟩)
  ∧ (∀ (draw : Int) (e : StoreErr) (debug : Bool),
      (tfbsViewSetList draw (.error e) debug).error = some e.msg)
  ∧ (∀ (draw : Int) (rows : List PosRow) (total : Int) (debug : Bool),
      (tfbsViewSetList draw (.ok (rows, total)) debug).error = none)
  ∧ (∀ (e : StoreErr) (term : String) (allowFile : Option (List (Option Int)))
      (csv : CountMap) (t : TfbsType) (offset limit : Nat) (noPag : Bool),
      searchByTfNameExc (.error e) term none allowFile csv t offset limit noPag =
        .error e)
  ∧ (∀ (e : StoreErr) (term cl : String) (allowFile : Option (List (Option Int)))
      (csv : CountMap) (t : TfbsType) (offset limit : Nat) (noPag : Bool),
      loadCellLineIds allowFile (some cl) ≠ [] →
      searchByTfNameExc (.error e) term (some cl) allowFile csv t offset limit noPag =
        .error e)
  ∧ (∀ (e : StoreErr) (terms : List String) (allowFile : Option (List (Option Int)))
      (csv : CountMap) (t : TfbsType) (offset limit : Nat) (noPag : Bool),
      terms ≠ [] →
      batchSearchByTfNameExc (.error e) terms none allowFile csv t offset limit noPag =
        .error e)
  ∧ (∀ (e : StoreErr) (terms : List String) (cl : String)
      (allowFile : Option (List (Option Int))) (csv : CountMap) (t : TfbsType)
      (offset limit : Nat) (noPag : Bool),
      terms ≠ [] → loadCellLineIds allowFile (some cl) ≠ [] →
      batchSearchByTfNameExc (.error e) terms (some cl) allowFile csv t offset limit
        noPag = .error e)
  ∧ (∀ (e : StoreErr) (locations : List (String × Option (Int × Int)))
      (allowFile : Option (List (Option Int))) (offset limit : Nat) (noPag : Bool),
      locations ≠ [] →
      batchSearchByLocationExc (.error e) locations none allowFile offset limit noPag =
        .error e)
  ∧ (∀ (e : StoreErr) (locations : List (String × Option (Int × Int))) (cl : String)
      (allowFile : Option (List (Option Int))) (offset limit : Nat) (noPag : Bool),
      locations ≠ [] → loadCellLineIds allowFile (some cl) ≠ [] →
      batchSearchByLocationExc (.error e) locations (some cl) allowFile offset limit
        noPag = .error e)
  ∧ (∀ (e : StoreErr) (content : String) (allowFile : Option (List (Option Int)))
      (csv : CountMap) (t : TfbsType) (offset limit : Nat),
      batchNameTerms content ≠ [] ∨ batchLocations content ≠ [] →
      batchViewListExc (.error e) content none allowFile csv t offset limit = .error e)
  ∧ (∀ (st : Store) (content : String) (cellLine : Option String)
      (allowFile : Option (List (Option Int))) (csv : CountMap) (t : TfbsType)
      (offset limit : Nat),
      batchViewListExc (.ok st) content cellLine allowFile csv t offset limit =
        .ok (batchViewList st content cellLine allowFile csv t offset limit)) := by
  refine ⟨fun _ _ _ _ _ _ _ => rfl, fun _ _ _ => rfl, fun _ _ _ => rfl,
    fun _ _ _ _ => rfl, fun _ _ _ _ _ _ _ _ => rfl, ?_, ?_, ?_, ?_, ?_, ?_, ?_⟩
  · intro e term cl allowFile csv t offset limit noPag hload
    have h : ¬((loadCellLineIds allowFile (some cl)).isEmpty = true) :=
      fun hh => hload ((isEmpty_eq_nil _).mp hh)
    unfold searchByTfNameExc
    simp [h, exceptMap_error]
  · intro e terms allowFile csv t offset limit noPag hterms
    have ht : ¬(terms.isEmpty = true) := fun hh => hterms ((isEmpty_eq_nil _).mp hh)
    unfold batchSearchByTfNameExc
    simp [ht, exceptMap_error]
  · intro e terms cl allowFile csv t offset limit noPag hterms hload
    have ht : ¬(terms.isEmpty = true) := fun hh => hterms ((isEmpty_eq_nil _).mp hh)
    have h : ¬((loadCellLineIds allowFile (some cl)).isEmpty = true) :=
      fun hh => hload ((isEmpty_eq_nil _).mp hh)
    unfold batchSearchByTfNameExc
    simp [ht, h, exceptMap_error]
  · intro e locations allowFile offset limit noPag hloc
    have hl : ¬(locations.isEmpty = true) := fun hh => hloc ((isEmpty_eq_nil _).mp hh)
    unfold batchSearchByLocationExc
    simp [hl, exceptMap_error]
  · intro e locations cl allowFile offset limit noPag hloc hload
    have hl : ¬(locations.isEmpty = true) := fun hh => hloc ((isEmpty_eq_nil _).mp hh)
    have h : ¬((loadCellLineIds allowFile (some cl)).isEmpty = true) :=
      fun hh => hload ((isEmpty_eq_nil _).mp hh)
    unfold batchSearchByLocationExc
    simp [hl, h, exceptMap_error]
  · intro e content allowFile csv t offset limit hne
    unfold batchViewListExc
    by_cases h1 : (batchNameTerms content).isEmpty
    · rcases hne with hn | hl
      · exact absurd ((isEmpty_eq_nil _).mp h1) hn
      · have h2 : ¬((batchLocations content).isEmpty = true) :=
          fun hh => hl ((isEmpty_eq_nil _).mp hh)
        have hrest : batchSearchByLocationExc
            ((Except.error e : Except StoreErr Store).map Store.positions)
            (batchLocations content) none allowFile offset limit false = .error e := by
          unfold batchSearchByLocationExc
          simp [h2, exceptMap_error]
        rw [if_pos h1, if_neg h2, hrest]
    · have htf : batchSearchByTfNameExc (.error e) (batchNameTerms content) none
          allowFile csv t offset limit false = .error e := by
        unfold batchSearchByTfNameExc
        simp [h1, exceptMap_error]
      rw [if_neg h1, htf]
  · intro st content cellLine allowFile csv t offset limit
    unfold batchViewListExc
    have h1 : (if (batchNameTerms content).isEmpty then Except.ok ([], (0 : Int))
        else batchSearchByTfNameExc (.ok st) (batchNameTerms content) cellLine
          allowFile csv t offset limit false) =
        Except.ok (if (batchNameTerms content).isEmpty then ([], (0 : Int))
          else batchSearchByTfName st (batchNameTerms content) cellLine allowFile csv t
            offset limit false) := by
      by_cases hh : (batchNameTerms content).isEmpty
      · simp [hh]
      · simp [hh, batchSearchByTfNameExc_ok]
    have h2 : (if (batchLocations content).isEmpty then Except.ok ([], (0 : Int))
        else batchSearchByLocationExc
          ((Except.ok st : Except StoreErr Store).map Store.positions)
          (batchLocations content) cellLine allowFile offset limit false) =
        Except.ok (if (batchLocations content).isEmpty then ([], (0 : Int))
          else batchSearchByLocation st.positions (batchLocations content) cellLine
            allowFile offset limit false) := by
      by_cases hh : (batchLocations content).isEmpty
      · simp [hh]
      · have hm : (Except.ok st : Except StoreErr Store).map Store.positions =
            Except.ok st.positions := rfl
        simp [hh, hm, batchSearchByLocationExc_ok]
    rw [h1, h2]
    rfl

/-- Concrete instantiation of the hypothesis-bearing conjuncts of
`claim_C9`: a concrete store error propagates through every store-touching
search path. -/
theorem claim_C9_witness :
    searchByTfNameExc (.error ⟨"boom", "tb"⟩) "X" (some "t") (some [some 1]) emptyCsv
      .all 0 25 false = .error ⟨"boom", "tb"⟩
  ∧ batchSearchByTfNameExc (.error ⟨"boom", "tb"⟩) ["X"] none none emptyCsv .all 0 25
      false = .error ⟨"boom", "tb"⟩
  ∧ batchSearchByTfNameExc (.error ⟨"boom", "tb"⟩) ["X"] (some "t") (some [some 1])
      emptyCsv .all 0 25 false = .error ⟨"boom", "tb"⟩
  ∧ batchSearchByLocationExc (.error ⟨"boom", "tb"⟩) [("chr1", none)] none none 0 25
      false = .error ⟨"boom", "tb"⟩
  ∧ batchSearchByLocationExc (.error ⟨"boom", "tb"⟩) [("chr1", none)] (some "t")
      (some [some 1]) 0 25 false = .error ⟨"boom", "tb"⟩
  ∧ batchViewListExc (.error ⟨"boom", "tb"⟩) "X\nchr1" none none emptyCsv .all 0 25 =
      .error ⟨"boom", "tb"⟩ := by
  refine ⟨claim_C9.2.2.2.2.2.1 ⟨"boom", "tb"⟩ "X" "t" (some [some 1]) emptyCsv .all 0 25
      false (by decide),
    claim_C9.2.2.2.2.2.2.1 ⟨"boom", "tb"⟩ ["X"] none emptyCsv .all 0 25 false
      (by decide),
    claim_C9.2.2.2.2.2.2.2.1 ⟨"boom", "tb"⟩ ["X"] "t" (some [some 1]) emptyCsv .all 0 25
      false (by decide) (by decide),
    claim_C9.2.2.2.2.2.2.2.2.1 ⟨"boom", "tb"⟩ [("chr1", none)] none 0 25 false
      (by decide),
    claim_C9.2.2.2.2.2.2.2.2.2.1 ⟨"boom", "tb"⟩ [("chr1", none)] "t" (some [some 1]) 0
      25 false (by decide) (by decide),
    claim_C9.2.2.2.2.2.2.2.2.2.2.1 ⟨"boom", "tb"⟩ "X\nchr1" none emptyCsv .all 0 25
      (Or.inl (by decide))⟩

/-! ## Claim C10 -/

/-- Claim C10 confirmed: the coordinate deduplication is a keep-first filter —
the result is a sublist of the input (relative order preserved), its keys are
pairwise distinct, every input key survives, and the first row bearing a key
is the one kept; consequently a single-location page, fetched ordered by
start ascending, stays sorted by start after windowing and deduplication. -/
theorem claim_C10 :
    (∀ l : List PosRow, (dedupBy coordKey [] l).Sublist l)
  ∧ (∀ l : List PosRow, ((dedupBy coordKey [] l).map coordKey).Nodup)
  ∧ (∀ (l : List PosRow) (r : PosRow), r ∈ l →
      coordKey r ∈ (dedupBy coordKey [] l).map coordKey)
  ∧ (∀ (l₁ l₂ : List PosRow) (r : PosRow),
      (∀ p ∈ l₁, coordKey p ≠ coordKey r) → r ∈ dedupBy coordKey [] (l₁ ++ r :: l₂))
  ∧ (∀ (positions : List PosRow) (chrom : String) (qs qe : Int)
      (allowed : Option (List Int)) (offset limit : Nat) (noPag : Bool),
      ((searchByLocationCore positions chrom (some (qs, qe)) allowed offset limit
        noPag).1).Pairwise (fun a b => a.start ≤ b.start)) := by
  refine ⟨fun l => dedupBy_sublist coordKey [] l,
    fun l => nodup_keys_dedup l,
    fun l r h => ?_,
    fun l₁ l₂ r h => dedupBy_keeps_first coordKey r l₁ [] l₂ (by simp) h,
    ?_⟩
  · rcases dedupBy_covers coordKey l [] r h with hc | hc
    · simp at hc
    · exact hc
  · intro positions chrom qs qe allowed offset limit noPag
    have hsorted := pairwise_sortRows_start
      (positions.filter (locWhere chrom (some (qs, qe)) allowed))
    have hsub : ((searchByLocationCore positions chrom (some (qs, qe)) allowed offset
        limit noPag).1).Sublist
        (sortRows startLe (positions.filter (locWhere chrom (some (qs, qe)) allowed))) := by
      cases noPag with
      | false =>
        exact (dedupBy_sublist coordKey [] _).trans (window_sublist offset limit _)
      | true => exact dedupBy_sublist coordKey [] _
    exact hsorted.sublist hsub

/-- Concrete instantiation of `claim_C10`: over a two-row list every key
survives deduplication and a row preceded only by rows with other keys is
kept. -/
theorem claim_C10_witness :
    coordKey rowB ∈ (dedupBy coordKey [] [rowA, rowB]).map coordKey
  ∧ rowA ∈ dedupBy coordKey [] ([rowB] ++ rowA :: []) :=
  ⟨claim_C10.2.2.1 [rowA, rowB] rowB (by decide),
    claim_C10.2.2.2.1 [rowB] [] rowA (by decide)⟩


end TFBS
